import Mathlib

/-!
Shallow embedding of the hydra queue-runner queue monitor
(src/hydra-queue-runner/queue-monitor.cc) and proofs about it.

The C++ core is single-threaded within `State::getQueuedBuilds` (all locks
are taken and released inside the modelled code, and the claims are about
the sequential behaviour of this code), so we model it as explicit state
passing.  Machine maps (`std::map`, `std::multimap`) are modelled as
association lists; `shared_ptr<Step>` objects live in an explicit heap
keyed by allocation order, and `weak_ptr` expiry is modelled by an `alive`
list of step ids; database writes and store reads become an event trace.
-/

namespace Hydra

abbrev Path := String

/-! ## Association-list primitives (model of std::map / std::multimap) -/

def aLookup {α β : Type} [DecidableEq α] (k : α) : List (α × β) → Option β
  | [] => none
  | kv :: rest => if k = kv.1 then some kv.2 else aLookup k rest

def aSet {α β : Type} [DecidableEq α] (k : α) (v : β) : List (α × β) → List (α × β)
  | [] => [(k, v)]
  | kv :: rest => if k = kv.1 then (k, v) :: rest else kv :: aSet k v rest

def aErase {α β : Type} [DecidableEq α] (k : α) : List (α × β) → List (α × β)
  | [] => []
  | kv :: rest => if k = kv.1 then rest else kv :: aErase k rest

theorem aLookup_aSet_self {α β : Type} [DecidableEq α] (k : α) (v : β) (l : List (α × β)) :
    aLookup k (aSet k v l) = some v := by
  induction l with
  | nil => simp [aLookup, aSet]
  | cons kv rest ih =>
    by_cases h : k = kv.1
    · simp [aSet, h, aLookup]
    · simp [aSet, h, aLookup, ih]

theorem aLookup_aSet_ne {α β : Type} [DecidableEq α] {k k' : α} (v : β) (l : List (α × β))
    (h : k ≠ k') : aLookup k (aSet k' v l) = aLookup k l := by
  induction l with
  | nil => simp [aLookup, aSet, h]
  | cons kv rest ih =>
    by_cases h2 : k' = kv.1
    · subst h2
      simp [aSet, aLookup, h, ih]
    · by_cases h3 : k = kv.1
      · simp [aSet, h2, aLookup, h3]
      · simp [aSet, h2, aLookup, h3, ih]

theorem aLookup_aErase_ne {α β : Type} [DecidableEq α] {k k' : α} (l : List (α × β))
    (h : k ≠ k') : aLookup k (aErase k' l) = aLookup k l := by
  induction l with
  | nil => simp [aLookup, aErase]
  | cons kv rest ih =>
    by_cases h2 : k' = kv.1
    · subst h2
      simp [aErase, aLookup, h]
    · by_cases h3 : k = kv.1
      · simp [aErase, h2, aLookup, h3]
      · simp [aErase, h2, aLookup, h3, ih]

theorem aLookup_mem {α β : Type} [DecidableEq α] {k : α} {v : β} {l : List (α × β)}
    (h : aLookup k l = some v) : (k, v) ∈ l := by
  induction l with
  | nil => simp [aLookup] at h
  | cons kv rest ih =>
    by_cases h2 : k = kv.1
    · rw [aLookup, if_pos h2] at h
      injection h with h3
      subst h2
      subst h3
      exact List.mem_cons_self _ _
    · rw [aLookup, if_neg h2] at h
      exact List.mem_cons_of_mem _ (ih h)

theorem mem_aSet {α β : Type} [DecidableEq α] {kv : α × β} {k : α} {v : β} {l : List (α × β)}
    (h : kv ∈ aSet k v l) : kv = (k, v) ∨ kv ∈ l := by
  induction l with
  | nil =>
    rw [aSet] at h
    rcases List.mem_singleton.1 h with rfl
    left
    rfl
  | cons kv0 rest ih =>
    by_cases h2 : k = kv0.1
    · rw [aSet, if_pos h2] at h
      rcases List.mem_cons.1 h with h | h
      · left; exact h
      · right; exact List.mem_cons_of_mem _ h
    · rw [aSet, if_neg h2] at h
      rcases List.mem_cons.1 h with h | h
      · right; rw [h]; exact List.mem_cons_self _ _
      · rcases ih h with h3 | h3
        · left; exact h3
        · right; exact List.mem_cons_of_mem _ h3

theorem mem_aErase {α β : Type} [DecidableEq α] {kv : α × β} {k : α} {l : List (α × β)}
    (h : kv ∈ aErase k l) : kv ∈ l := by
  induction l with
  | nil => simp [aErase] at h
  | cons kv0 rest ih =>
    by_cases h2 : k = kv0.1
    · simp [aErase, h2] at h
      exact List.mem_cons_of_mem _ h
    · simp [aErase, h2] at h
      rcases h with h | h
      · simp [h]
      · exact List.mem_cons_of_mem _ (ih h)

theorem aLookup_eq_none {α β : Type} [DecidableEq α] {k : α} {l : List (α × β)}
    (h : ∀ kv ∈ l, kv.1 ≠ k) : aLookup k l = none := by
  induction l with
  | nil => simp [aLookup]
  | cons kv rest ih =>
    have h1 : kv.1 ≠ k := h kv (List.mem_cons_self _ _)
    have h2 : k ≠ kv.1 := fun he => h1 he.symm
    simp [aLookup, h2]
    exact ih fun x hx => h x (List.mem_cons_of_mem _ hx)

theorem keys_aSet {α β : Type} [DecidableEq α] {x k : α} {v : β} {l : List (α × β)}
    (h : x ∈ (aSet k v l).map Prod.fst) : x = k ∨ x ∈ l.map Prod.fst := by
  rcases List.mem_map.1 h with ⟨kv, hmem, rfl⟩
  rcases mem_aSet hmem with h2 | h2
  · left; rw [h2]
  · right; exact List.mem_map_of_mem _ h2

theorem nodup_keys_aSet {α β : Type} [DecidableEq α] {k : α} {v : β} {l : List (α × β)}
    (h : (l.map Prod.fst).Nodup) : ((aSet k v l).map Prod.fst).Nodup := by
  induction l with
  | nil => simp [aSet]
  | cons kv rest ih =>
    simp only [List.map_cons, List.nodup_cons] at h
    by_cases h2 : k = kv.1
    · rw [aSet, if_pos h2]
      subst h2
      simp only [List.map_cons, List.nodup_cons]
      exact h
    · rw [aSet, if_neg h2]
      simp only [List.map_cons, List.nodup_cons]
      refine ⟨fun hx => ?_, ih h.2⟩
      rcases keys_aSet hx with h3 | h3
      · exact h2 h3.symm
      · exact h.1 h3

theorem nodup_keys_aErase {α β : Type} [DecidableEq α] {k : α} {l : List (α × β)}
    (h : (l.map Prod.fst).Nodup) : ((aErase k l).map Prod.fst).Nodup := by
  induction l with
  | nil => simp [aErase]
  | cons kv rest ih =>
    simp only [List.map_cons, List.nodup_cons] at h
    by_cases h2 : k = kv.1
    · rw [aErase, if_pos h2]
      exact h.2
    · rw [aErase, if_neg h2]
      simp only [List.map_cons, List.nodup_cons]
      refine ⟨fun hx => ?_, ih h.2⟩
      rcases List.mem_map.1 hx with ⟨kv2, hmem, heq⟩
      exact h.1 (List.mem_map.2 ⟨kv2, mem_aErase hmem, heq⟩)

theorem aLookup_of_mem_nodup {α β : Type} [DecidableEq α] {k : α} {v : β} {l : List (α × β)}
    (hmem : (k, v) ∈ l) (hnd : (l.map Prod.fst).Nodup) : aLookup k l = some v := by
  induction l with
  | nil => simp at hmem
  | cons kv rest ih =>
    simp only [List.map_cons, List.nodup_cons] at hnd
    rcases List.mem_cons.1 hmem with h | h
    · rw [← h]
      simp [aLookup]
    · have hk : k ≠ kv.1 := by
        intro he
        exact hnd.1 (List.mem_map.2 ⟨(k, v), h, he⟩)
      rw [aLookup, if_neg hk]
      exact ih h hnd.2

/-! ## Data model: Derivation, Step, Build (from state.hh, as used here) -/

structure Derivation where
  outputs : List (String × Path)
  inputDrvs : List Path
  env : List (String × String)
  platform : String
deriving Repr, DecidableEq

structure Store where
  validPaths : List Path
  drvs : List (Path × Derivation)
deriving Repr, DecidableEq

def Store.isValidPath (s : Store) (p : Path) : Bool := s.validPaths.contains p

def readDerivation (s : Store) (p : Path) : Option Derivation := aLookup p s.drvs

structure StepState where
  deps : List Nat
  rdeps : List Nat
  builds : List Nat
  created : Bool
deriving Repr, DecidableEq

structure Step where
  drvPath : Path
  drv : Option Derivation
  requiredSystemFeatures : List String
  preferLocalBuild : Bool
  state : StepState
deriving Repr, DecidableEq

structure Build where
  id : Nat
  drvPath : Path
  fullJobName : String
  maxSilentTime : Int
  buildTimeout : Int
  finishedInDB : Bool
  toplevel : Option Nat
deriving Repr, DecidableEq

/-! ## Status codes

Modelled from the spec: the concrete integers live in the external database
schema; the design requires only that the codes are distinct, so we use an
inductive type. -/

inductive BuildStatus where
  | success
  | failed
  | depFailed
  | aborted
  | unsupported
deriving Repr, DecidableEq

inductive BuildStepStatus where
  | success
  | failed
  | unsupported
deriving Repr, DecidableEq

/-! ## Database statements and the event trace -/

def gcMsg : String := "derivation was garbage-collected prior to build"

def sqlUpdateGC : String :=
  "update Builds set finished = 1, busy = 0, buildStatus = $2, startTime = $3, stopTime = $3, errorMsg = $4 where id = $1 and finished = 0"

def sqlUpdateFailed : String :=
  "update Builds set finished = 1, busy = 0, buildStatus = $2, startTime = $3, stopTime = $3, isCachedBuild = $4 where id = $1 and finished = 0"

/-- Modelled from the spec: `createBuildStep` (declared in state.hh, defined
outside this repository slice) writes one failing build-step row. -/
def sqlInsertBuildStep : String :=
  "insert into BuildSteps (build, stepnr, type, drvPath, busy, status) values ($1, $2, $3, $4, $5, $6)"

inductive DbStmt where
  | updateBuildsGC (id : Nat) (status : BuildStatus) (tim : Nat) (msg : String)
  | insertBuildStep (buildId : Nat) (drvPath : Path) (status : BuildStepStatus)
  | updateBuildsFailed (id : Nat) (status : BuildStatus) (tim : Nat) (isCachedBuild : Nat)
deriving Repr, DecidableEq

def DbStmt.sql : DbStmt → String
  | .updateBuildsGC _ _ _ _ => sqlUpdateGC
  | .insertBuildStep _ _ _ => sqlInsertBuildStep
  | .updateBuildsFailed _ _ _ _ => sqlUpdateFailed

inductive Event where
  | readDrv (p : Path)
  | getOutput (p : Path)
  | dbTxn (stmts : List DbStmt)
  | markSucceededTxn (id : Nat) (isCachedBuild : Bool) (startTime stopTime : Nat)
  | makeRunnable (sid : Nat)
deriving Repr, DecidableEq

/-- The transaction committed for a GC'ed derivation (queue-monitor.cc:99-106). -/
def gcTxn (id : Nat) (now : Nat) : Event :=
  .dbTxn [.updateBuildsGC id .aborted now gcMsg]

/-- The transaction committed for a cached-failure / unsupported step
(queue-monitor.cc:179-187): the build-step insertion followed by the Builds
update with `isCachedBuild = (buildStatus != bsUnsupported ? 1 : 0)`. -/
def failTxn (id : Nat) (drvPath : Path) (stepStatus : BuildStepStatus)
    (status : BuildStatus) (now : Nat) : Event :=
  .dbTxn [.insertBuildStep id drvPath stepStatus,
          .updateBuildsFailed id status now (if status ≠ BuildStatus.unsupported then 1 else 0)]

/-! ## Global state -/

structure GState where
  heap : List (Nat × Step)
  alive : List Nat
  stepsMap : List (Path × Nat)
  nextId : Nat
deriving Repr, DecidableEq

structure CS where
  finishedDrvs : List Path
  newSteps : List Nat
deriving Repr, DecidableEq

structure S where
  g : GState
  newRunnable : List Nat
  buildsMap : List (Nat × Build)
  newBuilds : List (Path × Build)
  nrAdded : Nat
  nrBuildsDone : Nat
  nrBuildsRead : Nat
  events : List Event
deriving Repr, DecidableEq

/-! ## Environment (configuration plus opaque collaborators) -/

/-- Modelled from the spec: a machine's `supportsStep` is consumed as an
opaque capability predicate; we model it by a per-machine list of supported
derivation paths. -/
structure MachineM where
  supportedDrvs : List Path
deriving Repr, DecidableEq

def MachineM.supportsStep (m : MachineM) (st : Step) : Bool :=
  m.supportedDrvs.contains st.drvPath

structure Env where
  store : Store
  buildOne : Nat
  localPlatforms : List String
  cachedFailPaths : List Path
  machines : List (Nat × MachineM)
  now : Nat
deriving Repr, DecidableEq

/-- Modelled from the spec: `checkCachedFailure(step, conn)` is an opaque
oracle telling whether the step has a known-failed output; we model it by a
list of failed derivation paths. -/
def checkCachedFailure (env : Env) (st : Step) : Bool :=
  env.cachedFailPaths.contains st.drvPath

def errFuel : String := "out of fuel"
def errDangling : String := "dangling step id"
def errAssert : String := "assertion failed"
def errReadDrv : String := "readDerivation failed"

/-! ## The step interner (queue-monitor.cc:275-308, the `steps` critical section) -/

def stepOfNew (drvPath : Path) : Step :=
  { drvPath := drvPath
    drv := none
    requiredSystemFeatures := []
    preferLocalBuild := false
    state := { deps := [], rdeps := [], builds := [], created := false } }

/-- `step_->builds.push_back(referringBuild)` / `step_->rdeps.push_back(referringStep)`. -/
def addRefs (st : Step) (rb : Option Nat) (rs : Option Nat) : Step :=
  let st1 :=
    match rb with
    | some b => { st with state := { st.state with builds := st.state.builds ++ [b] } }
    | none => st
  match rs with
  | some r => { st1 with state := { st1.state with rdeps := st1.state.rdeps ++ [r] } }
  | none => st1

/-- The fresh-allocation half of the interner critical section
(queue-monitor.cc:291-307, when no live entry was found): allocate an
uninitialised step with only `drvPath` set, assert `created != isNew`
(isNew is true here), link back-references, install the map entry under a
weak handle (the new id is recorded as alive: the caller holds the only
strong reference). -/
def internFresh (g : GState) (drvPath : Path) (rb : Option Nat) (rs : Option Nat) :
    Except String (Nat × Bool × GState) :=
  if (stepOfNew drvPath).state.created = false then
    .ok (g.nextId, true,
      { heap := aSet g.nextId (addRefs (stepOfNew drvPath) rb rs) g.heap
        alive := g.nextId :: g.alive
        stepsMap := aSet drvPath g.nextId g.stepsMap
        nextId := g.nextId + 1 })
  else .error errAssert

/-- The critical section of `State::createStep` over the `steps` map
(queue-monitor.cc:275-308): look the path up; a live entry is reused
(assert `created != isNew`, i.e. `created` must hold, then back-references
are linked and the map entry reinstalled); a stale entry is erased first;
otherwise a fresh uninitialised step is installed. -/
def internStep (g : GState) (drvPath : Path) (rb : Option Nat) (rs : Option Nat) :
    Except String (Nat × Bool × GState) :=
  match aLookup drvPath g.stepsMap with
  | some prevSid =>
    if prevSid ∈ g.alive then
      match aLookup prevSid g.heap with
      | none => .error errDangling
      | some st =>
        if st.state.created = true then
          .ok (prevSid, false,
            { g with heap := aSet prevSid (addRefs st rb rs) g.heap,
                     stepsMap := aSet drvPath prevSid g.stepsMap })
        else .error errAssert
    else
      internFresh { g with stepsMap := aErase drvPath g.stepsMap } drvPath rb rs
  | none => internFresh g drvPath rb rs

/-! ## Step graph builder (State::createStep, queue-monitor.cc:263-369)

The C++ recursion over `drv.inputDrvs` terminates because derivation input
graphs are finite and acyclic; we make the recursion total with a fuel
parameter (every theorem holds for every fuel, and witnesses pick enough). -/

def reqFeaturesKey : String := "requiredSystemFeatures"
def preferLocalKey : String := "preferLocalBuild"
def oneStr : String := "1"

/-- `tokenizeString<std::set<std::string>>` with default whitespace separators. -/
def tokenizeWS (s : String) : List String :=
  (s.split fun c => c == ' ' || c == '\t' || c == '\n' || c == '\r').filter (· ≠ "")

/-- `std::set` insertion. -/
def insertSid (x : Nat) (xs : List Nat) : List Nat :=
  if x ∈ xs then xs else x :: xs

/-- Initialisation of a freshly interned step (queue-monitor.cc:318-328):
record the derivation, parse `requiredSystemFeatures` from its environment,
and compute `preferLocalBuild`. -/
def initFields (env : Env) (drv : Derivation) (st0 : Step) : Step :=
  { st0 with
    drv := some drv
    requiredSystemFeatures :=
      match aLookup reqFeaturesKey drv.env with
      | some v => tokenizeWS v
      | none => []
    preferLocalBuild :=
      (match aLookup preferLocalKey drv.env with
       | some v => v == oneStr
       | none => false) && env.localPlatforms.contains drv.platform }

/-- `step_->created = true` (queue-monitor.cc:363). -/
def markCreated (st : Step) : Step :=
  { st with state := { st.state with created := true } }

/-- `step_->deps.insert(dep)` (queue-monitor.cc:354). -/
def addDepTo (pst : Step) (dep : Nat) : Step :=
  { pst with state := { pst.state with deps := insertSid dep pst.state.deps } }

mutual

def createStep (env : Env) : Nat → Path → Option Nat → Option Nat → S → CS →
    Except String (Option Nat × S × CS)
  | 0, _, _, _, _, _ => .error errFuel
  | fuel + 1, drvPath, rb, rs, s, cs =>
    if drvPath ∈ cs.finishedDrvs then .ok (none, s, cs) else
    match internStep s.g drvPath rb rs with
    | .error e => .error e
    | .ok (sid, isNew, g1) =>
      let s1 : S := { s with g := g1 }
      if isNew = false then .ok (some sid, s1, cs) else
      match readDerivation env.store drvPath with
      | none => .error errReadDrv
      | some drv =>
        let s2 : S := { s1 with events := Event.readDrv drvPath :: s1.events }
        match aLookup sid s2.g.heap with
        | none => .error errDangling
        | some st0 =>
          let s3 : S := { s2 with g := { s2.g with heap := aSet sid (initFields env drv st0) s2.g.heap } }
          if drv.outputs.all (fun o => env.store.isValidPath o.2) = true then
            .ok (none, s3, { cs with finishedDrvs := drvPath :: cs.finishedDrvs })
          else
            let cs1 : CS := { cs with newSteps := insertSid sid cs.newSteps }
            match createStepDeps env fuel sid drv.inputDrvs s3 cs1 with
            | .error e => .error e
            | .ok (s4, cs2) =>
              match aLookup sid s4.g.heap with
              | none => .error errDangling
              | some st2 =>
                if st2.state.created = true then .error errAssert
                else
                  let s5 : S := { s4 with g := { s4.g with heap := aSet sid (markCreated st2) s4.g.heap } }
                  let s6 : S :=
                    if st2.state.deps.isEmpty then
                      { s5 with newRunnable := insertSid sid s5.newRunnable }
                    else s5
                  .ok (some sid, s6, cs2)

def createStepDeps (env : Env) : Nat → Nat → List Path → S → CS → Except String (S × CS)
  | _, _, [], s, cs => .ok (s, cs)
  | 0, _, _ :: _, _, _ => .error errFuel
  | fuel + 1, parent, p :: rest, s, cs =>
    match createStep env fuel p none (some parent) s cs with
    | .error e => .error e
    | .ok (dep?, s1, cs1) =>
      match dep? with
      | none => createStepDeps env fuel parent rest s1 cs1
      | some dep =>
        match aLookup parent s1.g.heap with
        | none => .error errDangling
        | some pst =>
          let s2 : S := { s1 with g := { s1.g with heap := aSet parent (addDepTo pst dep) s1.g.heap } }
          createStepDeps env fuel parent rest s2 cs1

end

/-! ## The classification pass (queue-monitor.cc:150-194) -/

def classify (env : Env) (rootSid : Nat) :
    List Nat → Build → S → Except String (Bool × Build × S)
  | [], b, s => .ok (false, b, s)
  | r :: rest, b, s =>
    match aLookup r s.g.heap with
    | none => .error errDangling
    | some st =>
      let cached := checkCachedFailure env st
      let p1 : BuildStatus × BuildStepStatus :=
        if cached = true then
          (if rootSid = r then BuildStatus.failed else BuildStatus.depFailed,
           BuildStepStatus.failed)
        else (BuildStatus.success, BuildStepStatus.failed)
      let p2 : BuildStatus × BuildStepStatus :=
        if p1.1 = BuildStatus.success then
          if env.machines.any (fun m => m.2.supportsStep st) = true then p1
          else (BuildStatus.unsupported, BuildStepStatus.unsupported)
        else p1
      if p2.1 ≠ BuildStatus.success then
        if b.finishedInDB = false then
          .ok (true, { b with finishedInDB := true },
            { s with events := failTxn b.id st.drvPath p2.2 p2.1 env.now :: s.events,
                     nrBuildsDone := s.nrBuildsDone + 1 })
        else .ok (true, b, s)
      else classify env rootSid rest b s

/-! ## Multimap operations on the working set (std::multimap<Path, Build::ptr>) -/

def mmFindB (key : Path) : List (Path × Build) → Option Build
  | [] => none
  | kb :: rest => if key = kb.1 then some kb.2 else mmFindB key rest

def mmEraseFirst (key : Path) : List (Path × Build) → List (Path × Build)
  | [] => []
  | kb :: rest => if key = kb.1 then rest else kb :: mmEraseFirst key rest

/-- `std::multimap::emplace`: keep the list sorted by key, inserting after
entries with an equal key. -/
def mmInsert (k : Path) (b : Build) : List (Path × Build) → List (Path × Build)
  | [] => [(k, b)]
  | kb :: rest => if k < kb.1 then (k, b) :: kb :: rest else kb :: mmInsert k b rest

/-! ## Build ingestion (the createBuild lambda, queue-monitor.cc:91-210) -/

mutual

def createBuild (env : Env) : Nat → Build → S → Except String S
  | 0, _, _ => .error errFuel
  | fuel + 1, build, s =>
    let s0 : S := { s with nrAdded := s.nrAdded + 1 }
    if env.store.isValidPath build.drvPath = false then
      if build.finishedInDB = false then
        .ok { s0 with events := gcTxn build.id env.now :: s0.events,
                      nrBuildsDone := s0.nrBuildsDone + 1 }
      else .ok s0
    else
      match createStep env (fuel + 1) build.drvPath (some build.id) none s0 ⟨[], []⟩ with
      | .error e => .error e
      | .ok (step?, s1, cs) =>
        match piggyback env fuel cs.newSteps s1 with
        | .error e => .error e
        | .ok s2 =>
          match step? with
          | none =>
            match readDerivation env.store build.drvPath with
            | none => .error errReadDrv
            | some _drv =>
              .ok { s2 with events :=
                      Event.markSucceededTxn build.id true env.now env.now ::
                      Event.getOutput build.drvPath ::
                      Event.readDrv build.drvPath :: s2.events }
          | some rootSid =>
            match classify env rootSid cs.newSteps build s2 with
            | .error e => .error e
            | .ok (badStep, b1, s3) =>
              if badStep = true then .ok s3
              else
                let b2 : Build := { b1 with toplevel := some rootSid }
                let s4 : S :=
                  if b1.finishedInDB = false then
                    { s3 with buildsMap := aSet b2.id b2 s3.buildsMap }
                  else s3
                .ok s4

def piggyback (env : Env) : Nat → List Nat → S → Except String S
  | _, [], s => .ok s
  | 0, _ :: _, _ => .error errFuel
  | fuel + 1, sid :: rest, s =>
    match aLookup sid s.g.heap with
    | none => .error errDangling
    | some st =>
      match drainKey env fuel st.drvPath s with
      | .error e => .error e
      | .ok s1 => piggyback env fuel rest s1

def drainKey (env : Env) : Nat → Path → S → Except String S
  | 0, key, s => if (mmFindB key s.newBuilds).isSome then .error errFuel else .ok s
  | fuel + 1, key, s =>
    match mmFindB key s.newBuilds with
    | none => .ok s
    | some b =>
      let s1 : S := { s with newBuilds := mmEraseFirst key s.newBuilds }
      match createBuild env fuel b s1 with
      | .error e => .error e
      | .ok s2 => drainKey env fuel key s2

end

/-! ## Queue scan (queue-monitor.cc:62-85) and the outer drain loop (212-235) -/

structure QueuedRow where
  id : Nat
  project : String
  jobset : String
  job : String
  drvPath : Path
  maxsilent : Int
  timeout : Int
deriving Repr, DecidableEq

def rowBuild (r : QueuedRow) : Build :=
  { id := r.id
    drvPath := r.drvPath
    fullJobName := r.project ++ ":" ++ r.jobset ++ ":" ++ r.job
    maxSilentTime := r.maxsilent
    buildTimeout := r.timeout
    finishedInDB := false
    toplevel := none }

/-- The row loop of `getQueuedBuilds` (queue-monitor.cc:69-84): the
single-build pin filter, the high-water-mark update, the builds-map
membership filter, and insertion into the working multimap, in source
order.  Returns the new `lastBuildId` and the working set. -/
def scanRows (buildOne : Nat) (buildsMap : List (Nat × Build)) :
    List QueuedRow → Nat → List (Path × Build) → Nat × List (Path × Build)
  | [], last, acc => (last, acc)
  | r :: rest, last, acc =>
    if buildOne ≠ 0 ∧ r.id ≠ buildOne then scanRows buildOne buildsMap rest last acc
    else
      let last1 := if r.id > last then r.id else last
      if (aLookup r.id buildsMap).isSome then scanRows buildOne buildsMap rest last1 acc
      else scanRows buildOne buildsMap rest last1 (mmInsert r.drvPath (rowBuild r) acc)

def drainLoop (env : Env) : Nat → S → Except String S
  | 0, s => if s.newBuilds.isEmpty then .ok s else .error errFuel
  | fuel + 1, s =>
    match s.newBuilds with
    | [] => .ok s
    | (_, b) :: rest =>
      let s1 : S := { s with newBuilds := rest, newRunnable := [], nrAdded := 0 }
      match createBuild env (fuel + 1) b s1 with
      | .error e => .error e
      | .ok s2 =>
        let s3 : S := { s2 with
          events := s2.newRunnable.map Event.makeRunnable ++ s2.events,
          nrBuildsRead := s2.nrBuildsRead + s2.nrAdded }
        drainLoop env fuel s3

def getQueuedBuilds (env : Env) (rows : List QueuedRow) (fuel : Nat) (lastBuildId : Nat)
    (s : S) : Except String (Nat × S) :=
  let scanned := scanRows env.buildOne s.buildsMap rows lastBuildId []
  match drainLoop env fuel { s with newBuilds := scanned.2 } with
  | .error e => .error e
  | .ok s1 => .ok (scanned.1, s1)

/-! ## Well-formedness and invariants of the global state -/

/-- The step with id `sid` exists and has completed initialisation. -/
def createdB (g : GState) (sid : Nat) : Bool :=
  match aLookup sid g.heap with
  | some st => st.state.created
  | none => false

/-- Basic well-formedness: heap ids are below the allocation counter and the
two maps have no duplicate keys. -/
def WFg (g : GState) : Prop :=
  (∀ kv ∈ g.heap, kv.1 < g.nextId) ∧
  (g.heap.map Prod.fst).Nodup ∧
  (g.stepsMap.map Prod.fst).Nodup

/-- Every dependency of an initialised step is itself an initialised step. -/
def DepsCreated (g : GState) : Prop :=
  ∀ kv ∈ g.heap, kv.2.state.created = true → ∀ d ∈ kv.2.state.deps, createdB g d = true

theorem createdB_eq_true {g : GState} {sid : Nat} (h : createdB g sid = true) :
    ∃ st, aLookup sid g.heap = some st ∧ st.state.created = true := by
  unfold createdB at h
  cases h2 : aLookup sid g.heap with
  | none => rw [h2] at h; cases h
  | some st => rw [h2] at h; exact ⟨st, rfl, h⟩

theorem createdB_of_lookup {g : GState} {sid : Nat} {st : Step}
    (h : aLookup sid g.heap = some st) (hc : st.state.created = true) :
    createdB g sid = true := by
  unfold createdB
  rw [h]
  exact hc

theorem WFg.lookup_lt {g : GState} (hwf : WFg g) {sid : Nat} {st : Step}
    (h : aLookup sid g.heap = some st) : sid < g.nextId :=
  hwf.1 _ (aLookup_mem h)

theorem WFg.lookup_ge_none {g : GState} (hwf : WFg g) {sid : Nat}
    (h : g.nextId ≤ sid) : aLookup sid g.heap = none := by
  apply aLookup_eq_none
  intro kv hkv
  have h1 : kv.1 < g.nextId := hwf.1 kv hkv
  omega

theorem DepsCreated.of_lookup {g : GState} (hd : DepsCreated g) {sid : Nat} {st : Step}
    (h : aLookup sid g.heap = some st) (hc : st.state.created = true) :
    ∀ d ∈ st.state.deps, createdB g d = true :=
  hd (sid, st) (aLookup_mem h) hc

/-! ## Heap-transition postcondition

`HPost px nid0 g g1` relates the global state before and after any piece of
`createStep` / `createBuild` work: initialised steps survive with their
identity, dependency list and derivation frozen (only the back-reference
lists may grow); uninitialised steps allocated before `nid0` are untouched,
except for the one designated in-progress parent `px`, whose dependency
list may grow by initialised steps only. -/

structure HPost (px : Option Nat) (nid0 : Nat) (g g1 : GState) : Prop where
  hCreated : ∀ sid st, aLookup sid g.heap = some st → st.state.created = true →
    ∃ st1, aLookup sid g1.heap = some st1 ∧ st1.state.created = true ∧
      st1.state.deps = st.state.deps ∧ st1.drvPath = st.drvPath ∧ st1.drv = st.drv
  hOld : ∀ sid st, aLookup sid g.heap = some st → st.state.created = false → sid < nid0 →
    px = some sid ∨ aLookup sid g1.heap = some st
  hParent : ∀ parent, px = some parent → ∀ pst, aLookup parent g.heap = some pst →
    pst.state.created = false →
    ∃ pst1, aLookup parent g1.heap = some pst1 ∧ pst1.state.created = false ∧
      pst1.drvPath = pst.drvPath ∧ pst1.drv = pst.drv ∧
      (∀ d ∈ pst1.state.deps, d ∈ pst.state.deps ∨ createdB g1 d = true)
  hNewKeys : ∀ sid st, aLookup sid g1.heap = some st →
    (∃ st0, aLookup sid g.heap = some st0) ∨ nid0 ≤ sid
  hNext : nid0 ≤ g1.nextId
  hWF : WFg g → WFg g1
  hDeps : WFg g → DepsCreated g → DepsCreated g1

theorem HPost.createdMono {px : Option Nat} {nid0 : Nat} {g g1 : GState}
    (hp : HPost px nid0 g g1) {x : Nat} (h : createdB g x = true) : createdB g1 x = true := by
  rcases createdB_eq_true h with ⟨st, hl, hc⟩
  rcases hp.hCreated x st hl hc with ⟨st1, hl1, hc1, _⟩
  exact createdB_of_lookup hl1 hc1

theorem HPost.reflHP (px : Option Nat) (nid0 : Nat) (g : GState)
    (hn : nid0 ≤ g.nextId) : HPost px nid0 g g := by
  refine ⟨?_, ?_, ?_, ?_, hn, ?_, ?_⟩
  · intro sid st h hc
    exact ⟨st, h, hc, rfl, rfl, rfl⟩
  · intro sid st h _ _
    right; exact h
  · intro parent _ pst h hc
    refine ⟨pst, h, hc, rfl, rfl, ?_⟩
    intro d hd
    left; exact hd
  · intro sid st h
    left; exact ⟨st, h⟩
  · exact id
  · exact fun _ => id

theorem HPost.transHP {px : Option Nat} {n0 n1 : Nat} {g g1 g2 : GState}
    (h01 : HPost px n0 g g1) (h12 : HPost px n1 g1 g2) (hn : n0 ≤ n1)
    (hwf : WFg g) (hdc : DepsCreated g) : HPost px n0 g g2 := by
  refine ⟨?_, ?_, ?_, ?_, ?_, ?_, ?_⟩
  · intro sid st h hc
    rcases h01.hCreated sid st h hc with ⟨st1, hl1, hc1, hd1, hp1, hv1⟩
    rcases h12.hCreated sid st1 hl1 hc1 with ⟨st2, hl2, hc2, hd2, hp2, hv2⟩
    exact ⟨st2, hl2, hc2, hd2.trans hd1, hp2.trans hp1, hv2.trans hv1⟩
  · intro sid st h hc hlt
    rcases h01.hOld sid st h hc hlt with h1 | h1
    · left; exact h1
    · exact h12.hOld sid st h1 hc (lt_of_lt_of_le hlt hn)
  · intro parent hpe pst h hc
    rcases h01.hParent parent hpe pst h hc with ⟨pst1, hl1, hc1, hp1, hv1, hd1⟩
    rcases h12.hParent parent hpe pst1 hl1 hc1 with ⟨pst2, hl2, hc2, hp2, hv2, hd2⟩
    refine ⟨pst2, hl2, hc2, hp2.trans hp1, hv2.trans hv1, ?_⟩
    intro d hd
    rcases hd2 d hd with hd3 | hd3
    · rcases hd1 d hd3 with hd4 | hd4
      · left; exact hd4
      · right; exact h12.createdMono hd4
    · right; exact hd3
  · intro sid st h
    rcases h12.hNewKeys sid st h with ⟨st1, hl1⟩ | h1
    · rcases h01.hNewKeys sid st1 hl1 with h2 | h2
      · left; exact h2
      · right; exact h2
    · right; exact le_trans hn h1
  · exact le_trans hn h12.hNext
  · intro _
    exact h12.hWF (h01.hWF hwf)
  · intro _ _
    exact h12.hDeps (h01.hWF hwf) (h01.hDeps hwf hdc)

theorem HPost.weakenHP {n0 : Nat} {g g1 : GState} {parent : Nat}
    (h : HPost none n0 g g1) (hp : parent < n0) : HPost (some parent) n0 g g1 := by
  refine ⟨h.hCreated, ?_, ?_, h.hNewKeys, h.hNext, h.hWF, h.hDeps⟩
  · intro sid st hl hc hlt
    rcases h.hOld sid st hl hc hlt with h1 | h1
    · cases h1
    · right; exact h1
  · intro p hpe pst hl hc
    have hp2 : parent = p := by injection hpe
    subst hp2
    rcases h.hOld parent pst hl hc hp with h1 | h1
    · cases h1
    · refine ⟨pst, h1, hc, rfl, rfl, ?_⟩
      intro d hd
      left; exact hd

/-! ## Atomic heap transitions -/

theorem addRefs_created (st : Step) (rb : Option Nat) (rs : Option Nat) :
    (addRefs st rb rs).state.created = st.state.created := by
  unfold addRefs
  cases rb <;> cases rs <;> rfl

theorem addRefs_deps (st : Step) (rb : Option Nat) (rs : Option Nat) :
    (addRefs st rb rs).state.deps = st.state.deps := by
  unfold addRefs
  cases rb <;> cases rs <;> rfl

theorem addRefs_drvPath (st : Step) (rb : Option Nat) (rs : Option Nat) :
    (addRefs st rb rs).drvPath = st.drvPath := by
  unfold addRefs
  cases rb <;> cases rs <;> rfl

theorem addRefs_drv (st : Step) (rb : Option Nat) (rs : Option Nat) :
    (addRefs st rb rs).drv = st.drv := by
  unfold addRefs
  cases rb <;> cases rs <;> rfl

theorem addRefs_features (st : Step) (rb : Option Nat) (rs : Option Nat) :
    (addRefs st rb rs).requiredSystemFeatures = st.requiredSystemFeatures := by
  unfold addRefs
  cases rb <;> cases rs <;> rfl

theorem createdB_ne_of_noncreated {g : GState} {sid : Nat} {st0 : Step}
    (hl : aLookup sid g.heap = some st0) (hc0 : st0.state.created = false) {d : Nat}
    (h : createdB g d = true) : d ≠ sid := by
  intro he
  subst he
  rcases createdB_eq_true h with ⟨st, hl2, hc⟩
  rw [hl] at hl2
  injection hl2 with h3
  subst h3
  rw [hc0] at hc
  cases hc

theorem createdB_aSet_mono {g : GState} {sid : Nat} {st1 : Step} {d : Nat}
    (h : createdB g d = true) (hne : d ≠ sid ∨ st1.state.created = true) :
    createdB { g with heap := aSet sid st1 g.heap } d = true := by
  by_cases hd : d = sid
  · rcases hne with hne | hne
    · exact absurd hd hne
    · subst hd
      unfold createdB
      have he : ({ g with heap := aSet d st1 g.heap } : GState).heap = aSet d st1 g.heap := rfl
      rw [he, aLookup_aSet_self]
      exact hne
  · rcases createdB_eq_true h with ⟨st, hl, hc⟩
    unfold createdB
    have he : ({ g with heap := aSet sid st1 g.heap } : GState).heap = aSet sid st1 g.heap := rfl
    rw [he, aLookup_aSet_ne _ _ hd, hl]
    exact hc

theorem wf_aSet_existing {g : GState} {sid : Nat} {st1 : Step}
    (hwf : WFg g) (hlt : sid < g.nextId) :
    WFg { g with heap := aSet sid st1 g.heap } := by
  refine ⟨?_, ?_, hwf.2.2⟩
  · intro kv hkv
    rcases mem_aSet hkv with h | h
    · rw [h]; exact hlt
    · exact hwf.1 kv h
  · exact nodup_keys_aSet hwf.2.1

/-- Overwriting a still-uninitialised step with a value that is still
uninitialised, keeps its path and derivation, and only adds initialised
dependencies. -/
theorem hpost_aSet_noncreated {px : Option Nat} {nid0 : Nat} {g : GState} {sid : Nat}
    {st0 st1 : Step}
    (hwf : WFg g)
    (hl : aLookup sid g.heap = some st0)
    (hc0 : st0.state.created = false)
    (hc1 : st1.state.created = false)
    (hdp : st1.drvPath = st0.drvPath)
    (hdrv : px = some sid → st1.drv = st0.drv)
    (hdeps : ∀ d ∈ st1.state.deps, d ∈ st0.state.deps ∨ createdB g d = true)
    (hn : nid0 ≤ g.nextId)
    (hok : nid0 ≤ sid ∨ px = some sid) :
    HPost px nid0 g { g with heap := aSet sid st1 g.heap } := by
  have hheap : ({ g with heap := aSet sid st1 g.heap } : GState).heap = aSet sid st1 g.heap := rfl
  refine ⟨?_, ?_, ?_, ?_, ?_, ?_, ?_⟩
  · intro x st hx hc
    by_cases hxs : x = sid
    · subst hxs
      rw [hl] at hx
      injection hx with h3
      subst h3
      rw [hc0] at hc
      cases hc
    · exact ⟨st, by rw [hheap, aLookup_aSet_ne _ _ hxs, hx], hc, rfl, rfl, rfl⟩
  · intro x st hx hc hxlt
    by_cases hxs : x = sid
    · subst hxs
      rcases hok with hok | hok
      · omega
      · left; exact hok
    · right; rw [hheap, aLookup_aSet_ne _ _ hxs, hx]
  · intro p hpe pst hpl hpc
    by_cases hps : p = sid
    · subst hps
      rw [hl] at hpl
      injection hpl with h3
      subst h3
      refine ⟨st1, by rw [hheap, aLookup_aSet_self], hc1, hdp, hdrv hpe, ?_⟩
      intro d hd
      rcases hdeps d hd with h4 | h4
      · left; exact h4
      · right
        exact createdB_aSet_mono h4 (Or.inl (createdB_ne_of_noncreated hl hc0 h4))
    · refine ⟨pst, by rw [hheap, aLookup_aSet_ne _ _ hps, hpl], hpc, rfl, rfl, ?_⟩
      intro d hd
      left; exact hd
  · intro x st hx
    by_cases hxs : x = sid
    · subst hxs
      left; exact ⟨st0, hl⟩
    · rw [hheap, aLookup_aSet_ne _ _ hxs] at hx
      left; exact ⟨st, hx⟩
  · exact hn
  · intro hwfg
    exact wf_aSet_existing hwfg (hwfg.lookup_lt hl)
  · intro hwfg hdc
    intro kv hkv hkc d hd
    rcases mem_aSet hkv with h | h
    · rw [h] at hkc
      rw [hc1] at hkc
      cases hkc
    · have h5 := hdc kv h hkc d hd
      exact createdB_aSet_mono h5 (Or.inl (createdB_ne_of_noncreated hl hc0 h5))

/-- Setting `created := true` on a step all of whose dependencies are
initialised. -/
theorem hpost_aSet_finalize {px : Option Nat} {nid0 : Nat} {g : GState} {sid : Nat}
    {st0 st1 : Step}
    (hwf : WFg g)
    (hl : aLookup sid g.heap = some st0)
    (hc0 : st0.state.created = false)
    (hc1 : st1.state.created = true)
    (hdeps1 : st1.state.deps = st0.state.deps)
    (hall : ∀ d ∈ st0.state.deps, createdB g d = true)
    (hn : nid0 ≤ sid)
    (hpx : ∀ q, px = some q → q < nid0) :
    HPost px nid0 g { g with heap := aSet sid st1 g.heap } := by
  have hheap : ({ g with heap := aSet sid st1 g.heap } : GState).heap = aSet sid st1 g.heap := rfl
  have hsidlt : sid < g.nextId := hwf.lookup_lt hl
  refine ⟨?_, ?_, ?_, ?_, ?_, ?_, ?_⟩
  · intro x st hx hc
    by_cases hxs : x = sid
    · subst hxs
      rw [hl] at hx
      injection hx with h3
      subst h3
      rw [hc0] at hc
      cases hc
    · exact ⟨st, by rw [hheap, aLookup_aSet_ne _ _ hxs, hx], hc, rfl, rfl, rfl⟩
  · intro x st hx hc hxlt
    right
    have hxs : x ≠ sid := by omega
    rw [hheap, aLookup_aSet_ne _ _ hxs, hx]
  · intro p hpe pst hpl hpc
    have hps : p ≠ sid := by
      have := hpx p hpe
      omega
    refine ⟨pst, by rw [hheap, aLookup_aSet_ne _ _ hps, hpl], hpc, rfl, rfl, ?_⟩
    intro d hd
    left; exact hd
  · intro x st hx
    by_cases hxs : x = sid
    · subst hxs
      left; exact ⟨st0, hl⟩
    · rw [hheap, aLookup_aSet_ne _ _ hxs] at hx
      left; exact ⟨st, hx⟩
  · show nid0 ≤ g.nextId
    omega
  · intro hwfg
    exact wf_aSet_existing hwfg (hwfg.lookup_lt hl)
  · intro hwfg hdc
    intro kv hkv hkc d hd
    rcases mem_aSet hkv with h | h
    · rw [h] at hd
      simp only [hdeps1] at hd
      have h5 := hall d hd
      exact createdB_aSet_mono h5 (Or.inr hc1)
    · have h5 := hdc kv h hkc d hd
      exact createdB_aSet_mono h5 (Or.inr hc1)

/-- Heap postcondition for the live-entry case of the interner: the found
initialised step only gains back-references. -/
theorem internLive_hpost_aux {px : Option Nat} {g : GState} {prevSid : Nat} {st : Step}
    {rb rs : Option Nat} {dp : Path}
    (hlook : aLookup prevSid g.heap = some st) (hcr : st.state.created = true) :
    HPost px g.nextId g
      { g with heap := aSet prevSid (addRefs st rb rs) g.heap,
               stepsMap := aSet dp prevSid g.stepsMap } := by
  refine ⟨?_, ?_, ?_, ?_, le_refl _, ?_, ?_⟩
  · intro x stx hx hcx
    by_cases hxs : x = prevSid
    · subst hxs
      rw [hlook] at hx
      injection hx with h7
      subst h7
      refine ⟨addRefs st rb rs, ?_, ?_, ?_, ?_, ?_⟩
      · show aLookup x (aSet x (addRefs st rb rs) g.heap) = _
        rw [aLookup_aSet_self]
      · rw [addRefs_created]; exact hcx
      · rw [addRefs_deps]
      · rw [addRefs_drvPath]
      · rw [addRefs_drv]
    · refine ⟨stx, ?_, hcx, rfl, rfl, rfl⟩
      show aLookup x (aSet prevSid (addRefs st rb rs) g.heap) = _
      rw [aLookup_aSet_ne _ _ hxs, hx]
  · intro x stx hx hcx _
    by_cases hxs : x = prevSid
    · subst hxs
      rw [hlook] at hx
      injection hx with h7
      subst h7
      rw [hcr] at hcx
      cases hcx
    · right
      show aLookup x (aSet prevSid (addRefs st rb rs) g.heap) = _
      rw [aLookup_aSet_ne _ _ hxs, hx]
  · intro p _ pst hpl hpc
    by_cases hps : p = prevSid
    · subst hps
      rw [hlook] at hpl
      injection hpl with h7
      subst h7
      rw [hcr] at hpc
      cases hpc
    · refine ⟨pst, ?_, hpc, rfl, rfl, fun d hd => Or.inl hd⟩
      show aLookup p (aSet prevSid (addRefs st rb rs) g.heap) = _
      rw [aLookup_aSet_ne _ _ hps, hpl]
  · intro x stx hx
    by_cases hxs : x = prevSid
    · subst hxs
      left; exact ⟨st, hlook⟩
    · replace hx : aLookup x (aSet prevSid (addRefs st rb rs) g.heap) = some stx := hx
      rw [aLookup_aSet_ne _ _ hxs] at hx
      left; exact ⟨stx, hx⟩
  · intro hwfg
    refine ⟨?_, ?_, ?_⟩
    · intro kv hkv
      rcases mem_aSet hkv with h7 | h7
      · rw [h7]
        exact hwfg.lookup_lt hlook
      · exact hwfg.1 kv h7
    · exact nodup_keys_aSet hwfg.2.1
    · exact nodup_keys_aSet hwfg.2.2
  · intro _ hdc
    intro kv hkv hkc d hd
    rcases mem_aSet hkv with h7 | h7
    · have h8 : kv.2.state.deps = st.state.deps := by rw [h7, addRefs_deps]
      rw [h8] at hd
      have h9 := hdc (prevSid, st) (aLookup_mem hlook) hcr d hd
      exact createdB_aSet_mono h9 (Or.inr (by rw [addRefs_created]; exact hcr))
    · have h9 := hdc kv h7 hkc d hd
      exact createdB_aSet_mono h9 (Or.inr (by rw [addRefs_created]; exact hcr))

/-- Heap postcondition for the fresh-allocation case of the interner. -/
theorem internFresh_hpost_aux {px : Option Nat} {g : GState} {dp : Path} {rb rs : Option Nat}
    (hwf : WFg g) (sm : List (Path × Nat)) (hnd : (sm.map Prod.fst).Nodup) :
    HPost px g.nextId g
      { heap := aSet g.nextId (addRefs (stepOfNew dp) rb rs) g.heap
        alive := g.nextId :: g.alive
        stepsMap := aSet dp g.nextId sm
        nextId := g.nextId + 1 } := by
  have hcr0 : (addRefs (stepOfNew dp) rb rs).state.created = false := by
    rw [addRefs_created]; rfl
  refine ⟨?_, ?_, ?_, ?_, ?_, ?_, ?_⟩
  · intro x stx hx hcx
    have hxs : x ≠ g.nextId := by
      have := hwf.lookup_lt hx
      omega
    refine ⟨stx, ?_, hcx, rfl, rfl, rfl⟩
    show aLookup x (aSet g.nextId (addRefs (stepOfNew dp) rb rs) g.heap) = _
    rw [aLookup_aSet_ne _ _ hxs, hx]
  · intro x stx hx _ hxlt
    have hxs : x ≠ g.nextId := by omega
    right
    show aLookup x (aSet g.nextId (addRefs (stepOfNew dp) rb rs) g.heap) = _
    rw [aLookup_aSet_ne _ _ hxs, hx]
  · intro p _ pst hpl hpc
    have hps : p ≠ g.nextId := by
      have := hwf.lookup_lt hpl
      omega
    refine ⟨pst, ?_, hpc, rfl, rfl, fun d hd => Or.inl hd⟩
    show aLookup p (aSet g.nextId (addRefs (stepOfNew dp) rb rs) g.heap) = _
    rw [aLookup_aSet_ne _ _ hps, hpl]
  · intro x stx hx
    by_cases hxs : x = g.nextId
    · right; omega
    · replace hx : aLookup x (aSet g.nextId (addRefs (stepOfNew dp) rb rs) g.heap) = some stx := hx
      rw [aLookup_aSet_ne _ _ hxs] at hx
      left; exact ⟨stx, hx⟩
  · show g.nextId ≤ g.nextId + 1
    omega
  · intro hwfg
    refine ⟨?_, ?_, ?_⟩
    · intro kv hkv
      rcases mem_aSet hkv with h7 | h7
      · rw [h7]
        show g.nextId < g.nextId + 1
        omega
      · have := hwfg.1 kv h7
        show kv.1 < g.nextId + 1
        omega
    · exact nodup_keys_aSet hwfg.2.1
    · exact nodup_keys_aSet hnd
  · intro hwfg hdc
    intro kv hkv hkc d hd
    rcases mem_aSet hkv with h7 | h7
    · rw [h7] at hkc
      rw [hcr0] at hkc
      cases hkc
    · have h9 := hdc kv h7 hkc d hd
      rcases createdB_eq_true h9 with ⟨std, hld, hcd⟩
      have hdne : d ≠ g.nextId := by
        have := hwfg.lookup_lt hld
        omega
      unfold createdB
      show (match aLookup d (aSet g.nextId (addRefs (stepOfNew dp) rb rs) g.heap) with
            | some st => st.state.created
            | none => false) = true
      rw [aLookup_aSet_ne _ _ hdne, hld]
      exact hcd

/-- The interner critical section satisfies the heap postcondition. -/
theorem internStep_hpost {px : Option Nat} {g : GState} {dp : Path} {rb : Option Nat}
    {rs : Option Nat} {sid : Nat} {isNew : Bool} {g1 : GState}
    (h : internStep g dp rb rs = .ok (sid, isNew, g1))
    (hwf : WFg g) :
    HPost px g.nextId g g1 := by
  unfold internStep at h
  split at h
  case h_1 prevSid hprev =>
    split at h
    case isTrue halive =>
      split at h
      case h_1 hlook => cases h
      case h_2 st hlook =>
        split at h
        case isTrue hcr =>
          injection h with h2
          injection h2 with h3 h4
          injection h4 with h5 h6
          subst h6
          exact internLive_hpost_aux hlook hcr
        case isFalse hcr => cases h
    case isFalse halive =>
      unfold internFresh at h
      split at h
      case isTrue =>
        injection h with h2
        injection h2 with h3 h4
        injection h4 with h5 h6
        subst h6
        exact internFresh_hpost_aux hwf (aErase dp g.stepsMap) (nodup_keys_aErase hwf.2.2)
      case isFalse => cases h
  case h_2 hprev =>
    unfold internFresh at h
    split at h
    case isTrue =>
      injection h with h2
      injection h2 with h3 h4
      injection h4 with h5 h6
      subst h6
      exact internFresh_hpost_aux hwf g.stepsMap hwf.2.2
    case isFalse => cases h

/-! ## Result characterisation of the interner -/

theorem internStep_ok {g : GState} {dp : Path} {rb rs : Option Nat} {sid : Nat}
    {isNew : Bool} {g1 : GState}
    (h : internStep g dp rb rs = .ok (sid, isNew, g1)) :
    (isNew = false ∧ ∃ st, aLookup dp g.stepsMap = some sid ∧ sid ∈ g.alive ∧
      aLookup sid g.heap = some st ∧ st.state.created = true ∧
      g1 = { g with heap := aSet sid (addRefs st rb rs) g.heap,
                    stepsMap := aSet dp sid g.stepsMap })
    ∨ (isNew = true ∧ sid = g.nextId ∧
      g1.heap = aSet g.nextId (addRefs (stepOfNew dp) rb rs) g.heap ∧
      g1.alive = g.nextId :: g.alive ∧ g1.nextId = g.nextId + 1 ∧
      ((aLookup dp g.stepsMap = none ∧ g1.stepsMap = aSet dp g.nextId g.stepsMap) ∨
       (∃ x, aLookup dp g.stepsMap = some x ∧ x ∉ g.alive ∧
         g1.stepsMap = aSet dp g.nextId (aErase dp g.stepsMap)))) := by
  unfold internStep at h
  split at h
  case h_1 prevSid hprev =>
    split at h
    case isTrue halive =>
      split at h
      case h_1 hlook => cases h
      case h_2 st hlook =>
        split at h
        case isTrue hcr =>
          injection h with h2
          injection h2 with h3 h4
          injection h4 with h5 h6
          subst h3
          subst h6
          left
          exact ⟨h5.symm, st, hprev, halive, hlook, hcr, rfl⟩
        case isFalse hcr => cases h
    case isFalse halive =>
      unfold internFresh at h
      split at h
      case isTrue =>
        injection h with h2
        injection h2 with h3 h4
        injection h4 with h5 h6
        subst h3
        subst h6
        right
        exact ⟨h5.symm, rfl, rfl, rfl, rfl, Or.inr ⟨prevSid, hprev, halive, rfl⟩⟩
      case isFalse => cases h
  case h_2 hprev =>
    unfold internFresh at h
    split at h
    case isTrue =>
      injection h with h2
      injection h2 with h3 h4
      injection h4 with h5 h6
      subst h3
      subst h6
      right
      exact ⟨h5.symm, rfl, rfl, rfl, rfl, Or.inl ⟨hprev, rfl⟩⟩
    case isFalse => cases h

/-- No step allocated at or past the old allocation counter is initialised
right after the interner critical section. -/
theorem internStep_no_fresh_created {g : GState} {dp : Path} {rb rs : Option Nat}
    {sid : Nat} {isNew : Bool} {g1 : GState}
    (h : internStep g dp rb rs = .ok (sid, isNew, g1)) (hwf : WFg g) :
    ∀ x st, aLookup x g1.heap = some st → g.nextId ≤ x → st.state.created = false := by
  intro x st hx hge
  rcases internStep_ok h with ⟨_, st0, _, _, hlook, hcr, hg1⟩ | ⟨_, hsid, hheap, _, _, _⟩
  · subst hg1
    have hxs : x ≠ sid := by
      have := hwf.lookup_lt hlook
      omega
    replace hx : aLookup x (aSet sid (addRefs st0 rb rs) g.heap) = some st := hx
    rw [aLookup_aSet_ne _ _ hxs] at hx
    have := hwf.lookup_lt hx
    omega
  · rw [hheap] at hx
    by_cases hxs : x = g.nextId
    · subst hxs
      rw [aLookup_aSet_self] at hx
      injection hx with h7
      subst h7
      rw [addRefs_created]
      rfl
    · rw [aLookup_aSet_ne _ _ hxs] at hx
      have := hwf.lookup_lt hx
      omega

/-! ## S-level postcondition for the step graph builder -/

theorem mem_insertSid {x y : Nat} {l : List Nat} :
    x ∈ insertSid y l ↔ x = y ∨ x ∈ l := by
  unfold insertSid
  by_cases h : y ∈ l
  · rw [if_pos h]
    constructor
    · intro hx; right; exact hx
    · intro hx
      rcases hx with hx | hx
      · rw [hx]; exact h
      · exact hx
  · rw [if_neg h]
    exact List.mem_cons

theorem mem_insertSid_self {y : Nat} {l : List Nat} : y ∈ insertSid y l :=
  mem_insertSid.2 (Or.inl rfl)

theorem mem_insertSid_of_mem {x y : Nat} {l : List Nat} (h : x ∈ l) : x ∈ insertSid y l :=
  mem_insertSid.2 (Or.inr h)

/-- Postcondition of `createStep` / `createStepDeps` at the level of the full
monitor state plus the per-ingestion locals. -/
structure StepsOut (px : Option Nat) (s : S) (cs : CS) (s1 : S) (cs1 : CS) : Prop where
  hp : HPost px s.g.nextId s.g s1.g
  hNSmono : ∀ x ∈ cs.newSteps, x ∈ cs1.newSteps
  hNRmono : ∀ x ∈ s.newRunnable, x ∈ s1.newRunnable
  hNSnew : ∀ x ∈ cs1.newSteps, x ∈ cs.newSteps ∨
    ∃ st, aLookup x s1.g.heap = some st ∧ st.state.created = true ∧ st.drv ≠ none
  hNSfreshIds : ∀ x ∈ cs1.newSteps, x ∉ cs.newSteps → s.g.nextId ≤ x
  hNRnew : ∀ x ∈ s1.newRunnable, x ∈ s.newRunnable ∨
    (x ∈ cs1.newSteps ∧ x ∉ cs.newSteps ∧
      ∃ st, aLookup x s1.g.heap = some st ∧ st.state.created = true ∧ st.state.deps = [])
  hNRif : ∀ x ∈ cs1.newSteps, x ∉ cs.newSteps →
    ∀ st, aLookup x s1.g.heap = some st → st.state.deps = [] → x ∈ s1.newRunnable
  hFresh : ∀ x st, aLookup x s1.g.heap = some st → s.g.nextId ≤ x →
    st.state.created = true → x ∈ cs1.newSteps
  hNSbound : ∀ x ∈ cs1.newSteps, x < s1.g.nextId
  hBM : s1.buildsMap = s.buildsMap
  hNB : s1.newBuilds = s.newBuilds
  hNA : s1.nrAdded = s.nrAdded
  hND : s1.nrBuildsDone = s.nrBuildsDone
  hNRd : s1.nrBuildsRead = s.nrBuildsRead
  hEv : ∀ e ∈ s1.events, e ∈ s.events ∨ ∃ p, e = Event.readDrv p

theorem StepsOut.transSO {px : Option Nat} {s s2 s3 : S} {cs cs2 cs3 : CS}
    (h1 : StepsOut px s cs s2 cs2) (h2 : StepsOut px s2 cs2 s3 cs3)
    (hwf : WFg s.g) (hdc : DepsCreated s.g) : StepsOut px s cs s3 cs3 := by
  refine ⟨h1.hp.transHP h2.hp h1.hp.hNext hwf hdc, ?_, ?_, ?_, ?_, ?_, ?_, ?_, ?_, ?_, ?_, ?_, ?_, ?_, ?_⟩
  · intro x hx
    exact h2.hNSmono x (h1.hNSmono x hx)
  · intro x hx
    exact h2.hNRmono x (h1.hNRmono x hx)
  · intro x hx
    rcases h2.hNSnew x hx with hx2 | ⟨st, hl, hc, hd⟩
    · rcases h1.hNSnew x hx2 with hx3 | ⟨st, hl, hc, hd⟩
      · left; exact hx3
      · right
        rcases h2.hp.hCreated x st hl hc with ⟨st1, hl1, hc1, _, _, hv1⟩
        exact ⟨st1, hl1, hc1, by rw [hv1]; exact hd⟩
    · right; exact ⟨st, hl, hc, hd⟩
  · intro x hx hxn
    by_cases hx2 : x ∈ cs2.newSteps
    · exact h1.hNSfreshIds x hx2 hxn
    · exact le_trans h1.hp.hNext (h2.hNSfreshIds x hx hx2)
  · intro x hx
    rcases h2.hNRnew x hx with hx2 | ⟨hxc, hxn, st, hl, hc, hd⟩
    · rcases h1.hNRnew x hx2 with hx3 | ⟨hxc, hxn, st, hl, hc, hd⟩
      · left; exact hx3
      · right
        refine ⟨h2.hNSmono x hxc, hxn, ?_⟩
        rcases h2.hp.hCreated x st hl hc with ⟨st1, hl1, hc1, hd1, _, _⟩
        exact ⟨st1, hl1, hc1, by rw [hd1]; exact hd⟩
    · right
      refine ⟨hxc, fun hmem => hxn (h1.hNSmono x hmem), st, hl, hc, hd⟩
  · intro x hx hxn st hl hd
    by_cases hx2 : x ∈ cs2.newSteps
    · rcases h1.hNSnew x hx2 with hx3 | ⟨st2, hl2, hc2, _⟩
      · exact absurd hx3 hxn
      · rcases h2.hp.hCreated x st2 hl2 hc2 with ⟨st3, hl3, hc3, hd3, _, _⟩
        rw [hl3] at hl
        injection hl with h7
        subst h7
        rw [hd3] at hd
        have := h1.hNRif x hx2 hxn st2 hl2 hd
        exact h2.hNRmono x this
    · exact h2.hNRif x hx hx2 st hl hd
  · intro x st hl hge hc
    by_cases hx2 : s2.g.nextId ≤ x
    · exact h2.hFresh x st hl hx2 hc
    · push_neg at hx2
      rcases h2.hp.hNewKeys x st hl with ⟨st0, hl0⟩ | hge2
      · by_cases hc0 : st0.state.created = true
        · exact h2.hNSmono x (h1.hFresh x st0 hl0 hge hc0)
        · rw [Bool.not_eq_true] at hc0
          rcases h2.hp.hOld x st0 hl0 hc0 hx2 with hpx | hun
          · rcases h2.hp.hParent x hpx st0 hl0 hc0 with ⟨pst1, hl1, hc1, _⟩
            rw [hl1] at hl
            injection hl with h7
            subst h7
            rw [hc1] at hc
            cases hc
          · rw [hun] at hl
            injection hl with h7
            subst h7
            rw [hc0] at hc
            cases hc
      · omega
  · intro x hx
    exact lt_of_lt_of_le (h2.hNSbound x hx) (le_refl _)
  · rw [h2.hBM, h1.hBM]
  · rw [h2.hNB, h1.hNB]
  · rw [h2.hNA, h1.hNA]
  · rw [h2.hND, h1.hND]
  · rw [h2.hNRd, h1.hNRd]
  · intro e he
    rcases h2.hEv e he with he2 | he2
    · exact h1.hEv e he2
    · right; exact he2

theorem StepsOut.weakenSO {s s1 : S} {cs cs1 : CS} {parent : Nat}
    (h : StepsOut none s cs s1 cs1) (hp : parent < s.g.nextId) :
    StepsOut (some parent) s cs s1 cs1 :=
  ⟨h.hp.weakenHP hp, h.hNSmono, h.hNRmono, h.hNSnew, h.hNSfreshIds, h.hNRnew, h.hNRif, h.hFresh,
   h.hNSbound, h.hBM, h.hNB, h.hNA, h.hND, h.hNRd, h.hEv⟩

/-- A pure heap transition with no fresh initialised steps lifts to a
`StepsOut` with unchanged locals. -/
theorem StepsOut.ofHeap {px : Option Nat} {s : S} {cs : CS} {g1 : GState}
    (hp : HPost px s.g.nextId s.g g1)
    (hnc : ∀ x st, aLookup x g1.heap = some st → s.g.nextId ≤ x → st.state.created = false)
    (hbound : ∀ x ∈ cs.newSteps, x < s.g.nextId) :
    StepsOut px s cs { s with g := g1 } cs := by
  refine ⟨hp, ?_, ?_, ?_, ?_, ?_, ?_, ?_, ?_, rfl, rfl, rfl, rfl, rfl, ?_⟩
  · intro x hx; exact hx
  · intro x hx; exact hx
  · intro x hx; left; exact hx
  · intro x hx hxn
    exact absurd hx hxn
  · intro x hx; left; exact hx
  · intro x hx hxn
    exact absurd hx hxn
  · intro x st hl hge hc
    have := hnc x st hl hge
    rw [this] at hc
    cases hc
  · intro x hx
    exact lt_of_lt_of_le (hbound x hx) hp.hNext
  · intro e he
    left; exact he

/-- Pushing a `readDrv` event. -/
theorem StepsOut.pushReadDrv {px : Option Nat} {s : S} {cs : CS} (p : Path)
    (hwf : WFg s.g)
    (hbound : ∀ x ∈ cs.newSteps, x < s.g.nextId) :
    StepsOut px s cs { s with events := Event.readDrv p :: s.events } cs := by
  refine ⟨HPost.reflHP _ _ _ (le_refl _), ?_, ?_, ?_, ?_, ?_, ?_, ?_, ?_, rfl, rfl, rfl, rfl, rfl, ?_⟩
  · intro x hx; exact hx
  · intro x hx; exact hx
  · intro x hx; left; exact hx
  · intro x hx hxn
    exact absurd hx hxn
  · intro x hx; left; exact hx
  · intro x hx hxn
    exact absurd hx hxn
  · intro x st hl hge _
    replace hl : aLookup x s.g.heap = some st := hl
    rw [hwf.lookup_ge_none hge] at hl
    cases hl
  · intro x hx
    exact hbound x hx
  · intro e he
    rcases List.mem_cons.1 he with he | he
    · right; exact ⟨p, he⟩
    · left; exact he

theorem StepsOut.reflSO (px : Option Nat) (s : S) (cs : CS)
    (hbound : ∀ x ∈ cs.newSteps, x < s.g.nextId) (hwf : WFg s.g) :
    StepsOut px s cs s cs := by
  refine ⟨HPost.reflHP _ _ _ (le_refl _), ?_, ?_, ?_, ?_, ?_, ?_, ?_, hbound, rfl, rfl, rfl, rfl, rfl, ?_⟩
  · intro x hx; exact hx
  · intro x hx; exact hx
  · intro x hx; left; exact hx
  · intro x hx hxn
    exact absurd hx hxn
  · intro x hx; left; exact hx
  · intro x hx hxn
    exact absurd hx hxn
  · intro x st hl hge _
    rw [hwf.lookup_ge_none hge] at hl
    cases hl
  · intro e he
    left; exact he

/-- Through a transition whose in-progress parent is `parent`, an
uninitialised parent stays uninitialised. -/
theorem HPost.parentStays {parent n0 : Nat} {g g1 : GState} (h : HPost (some parent) n0 g g1)
    (hplt : parent < n0)
    (hpar : ∀ pst, aLookup parent g.heap = some pst → pst.state.created = false) :
    ∀ pst, aLookup parent g1.heap = some pst → pst.state.created = false := by
  intro pst hl
  rcases h.hNewKeys parent pst hl with ⟨pst0, hl0⟩ | hge
  · have hc0 : pst0.state.created = false := hpar pst0 hl0
    rcases h.hParent parent rfl pst0 hl0 hc0 with ⟨pst1, hl1, hc1, _⟩
    rw [hl1] at hl
    injection hl with h7
    subst h7
    exact hc1
  · omega

/-- Forgetting the in-progress parent of a transition, relative to a lower
allocation bound that the parent does not precede. -/
theorem HPost.toNone {p n1 n0 : Nat} {g g1 : GState}
    (h : HPost (some p) n1 g g1) (hle : n0 ≤ n1) (hple : n0 ≤ p) :
    HPost none n0 g g1 := by
  refine ⟨h.hCreated, ?_, ?_, ?_, le_trans hle h.hNext, h.hWF, h.hDeps⟩
  · intro sid st hl hc hlt
    rcases h.hOld sid st hl hc (lt_of_lt_of_le hlt hle) with h1 | h1
    · injection h1 with h2
      omega
    · right; exact h1
  · intro q hq
    cases hq
  · intro sid st hl
    rcases h.hNewKeys sid st hl with h1 | h1
    · left; exact h1
    · right; omega

/-- A heap transition plus some `readDrv` events, with unchanged locals. -/
theorem StepsOut.mk' {px : Option Nat} {s : S} {cs : CS} {g1 : GState} {evs : List Event}
    (hp : HPost px s.g.nextId s.g g1)
    (hnc : ∀ x st, aLookup x g1.heap = some st → s.g.nextId ≤ x → st.state.created = false)
    (hbound : ∀ x ∈ cs.newSteps, x < s.g.nextId)
    (hevs : ∀ e ∈ evs, ∃ p, e = Event.readDrv p) :
    StepsOut px s cs { s with g := g1, events := evs ++ s.events } cs := by
  refine ⟨hp, ?_, ?_, ?_, ?_, ?_, ?_, ?_, ?_, rfl, rfl, rfl, rfl, rfl, ?_⟩
  · intro x hx; exact hx
  · intro x hx; exact hx
  · intro x hx; left; exact hx
  · intro x hx hxn
    exact absurd hx hxn
  · intro x hx; left; exact hx
  · intro x hx hxn
    exact absurd hx hxn
  · intro x st hl hge hc
    have := hnc x st hl hge
    rw [this] at hc
    cases hc
  · intro x hx
    exact lt_of_lt_of_le (hbound x hx) hp.hNext
  · intro e he
    rcases List.mem_append.1 he with he | he
    · right; exact hevs e he
    · left; exact he

/-- The parent's dependency list after a transition: everything it gained is
initialised. -/
theorem HPost.parentDeps {parent n0 : Nat} {g g1 : GState} {pst0 : Step}
    (h : HPost (some parent) n0 g g1)
    (hl0 : aLookup parent g.heap = some pst0)
    (hc0 : pst0.state.created = false) :
    ∀ pst1, aLookup parent g1.heap = some pst1 →
      ∀ d ∈ pst1.state.deps, d ∈ pst0.state.deps ∨ createdB g1 d = true := by
  intro pst1 hl1 d hd
  rcases h.hParent parent rfl pst0 hl0 hc0 with ⟨pst2, hl2, _, _, _, hdeps⟩
  rw [hl2] at hl1
  injection hl1 with h7
  subst h7
  exact hdeps d hd

theorem StepsOut.castEnd {px : Option Nat} {s s1 s1' : S} {cs cs1 : CS}
    (h : StepsOut px s cs s1 cs1) (h1 : s1 = s1') : StepsOut px s cs s1' cs1 := h1 ▸ h

/-- Retag the final locals with any `CS` value having the same `newSteps`. -/
theorem StepsOut.retagCS {px : Option Nat} {s s1 : S} {cs cs1 cs2 : CS}
    (h : StepsOut px s cs s1 cs1) (hns : cs2.newSteps = cs1.newSteps) :
    StepsOut px s cs s1 cs2 := by
  refine ⟨h.hp, ?_, h.hNRmono, ?_, ?_, ?_, ?_, ?_, ?_, h.hBM, h.hNB, h.hNA, h.hND, h.hNRd, h.hEv⟩
  · intro x hx
    rw [hns]
    exact h.hNSmono x hx
  · intro x hx
    rw [hns] at hx
    exact h.hNSnew x hx
  · intro x hx
    rw [hns] at hx
    exact h.hNSfreshIds x hx
  · intro x hx
    rcases h.hNRnew x hx with h1 | ⟨h1, h2, h3⟩
    · left; exact h1
    · right
      rw [hns]
      exact ⟨h1, h2, h3⟩
  · intro x hx
    rw [hns] at hx
    exact h.hNRif x hx
  · intro x st hl hge hc
    rw [hns]
    exact h.hFresh x st hl hge hc
  · intro x hx
    rw [hns] at hx
    exact h.hNSbound x hx

/-! ## The main postcondition theorem for the step graph builder -/

theorem createStep_createStepDeps_out (env : Env) : ∀ fuel : Nat,
    (∀ (dp : Path) (rb rs : Option Nat) (s : S) (cs : CS) (r : Option Nat) (s1 : S) (cs1 : CS),
      WFg s.g → DepsCreated s.g → (∀ x ∈ cs.newSteps, x < s.g.nextId) →
      createStep env fuel dp rb rs s cs = .ok (r, s1, cs1) →
      StepsOut none s cs s1 cs1 ∧
        ∀ x, r = some x → ∃ st, aLookup x s1.g.heap = some st ∧ st.state.created = true) ∧
    (∀ (parent : Nat) (inputs : List Path) (s : S) (cs : CS) (s1 : S) (cs1 : CS),
      WFg s.g → DepsCreated s.g → (∀ x ∈ cs.newSteps, x < s.g.nextId) →
      parent < s.g.nextId →
      (∀ pst, aLookup parent s.g.heap = some pst → pst.state.created = false) →
      createStepDeps env fuel parent inputs s cs = .ok (s1, cs1) →
      StepsOut (some parent) s cs s1 cs1) := by
  intro fuel
  induction fuel with
  | zero =>
    constructor
    · intro dp rb rs s cs r s1 cs1 hwf hdc hbound h
      simp only [createStep] at h
      cases h
    · intro parent inputs s cs s1 cs1 hwf hdc hbound hplt hpar h
      cases inputs with
      | nil =>
        simp only [createStepDeps] at h
        injection h with h2
        injection h2 with hb1 hb2
        subst hb1
        subst hb2
        exact StepsOut.reflSO _ _ _ hbound hwf
      | cons p rest =>
        simp only [createStepDeps] at h
        cases h
  | succ n ih =>
    obtain ⟨ihS, ihD⟩ := ih
    constructor
    · intro dp rb rs s cs r s1 cs1 hwf hdc hbound h
      simp only [createStep] at h
      split at h
      case isTrue hfin =>
        injection h with h2
        injection h2 with ha hb
        injection hb with hb1 hb2
        subst ha
        subst hb1
        subst hb2
        refine ⟨StepsOut.reflSO _ _ _ hbound hwf, ?_⟩
        intro x hx
        cases hx
      case isFalse hfin =>
      split at h
      case h_1 e heq => cases h
      case h_2 sid isNew g1 heq =>
      have hpIntern : HPost none s.g.nextId s.g g1 := internStep_hpost heq hwf
      split at h
      case isTrue hnew =>
        -- pre-existing step returned without re-initialisation
        injection h with h2
        injection h2 with ha hb
        injection hb with hb1 hb2
        subst ha
        subst hb1
        subst hb2
        refine ⟨StepsOut.ofHeap hpIntern (internStep_no_fresh_created heq hwf) hbound, ?_⟩
        intro x hx
        injection hx with hx2
        subst hx2
        rcases internStep_ok heq with ⟨_, st, _, _, _, hcr, hg1⟩ | ⟨hinew, _⟩
        · subst hg1
          refine ⟨addRefs st rb rs, ?_, ?_⟩
          · show aLookup sid (aSet sid (addRefs st rb rs) s.g.heap) = _
            rw [aLookup_aSet_self]
          · rw [addRefs_created]
            exact hcr
        · rw [hinew] at hnew
          cases hnew
      case isFalse hnew =>
      split at h
      case h_1 hrd => cases h
      case h_2 drv hrd =>
      split at h
      case h_1 hlk => cases h
      case h_2 st0 hlk =>
      -- the freshly allocated uninitialised step
      rcases internStep_ok heq with ⟨hinew, _⟩ | ⟨hinew, hsid, hg1heap, hg1alive, hg1next, hg1sm⟩
      · rw [hinew] at hnew
        exact absurd rfl hnew
      have hwf1 : WFg g1 := hpIntern.hWF hwf
      have hdc1 : DepsCreated g1 := hpIntern.hDeps hwf hdc
      replace hlk : aLookup sid g1.heap = some st0 := hlk
      have hst0 : st0 = addRefs (stepOfNew dp) rb rs := by
        rw [hg1heap, hsid, aLookup_aSet_self] at hlk
        injection hlk with h7
        exact h7.symm
      have hc0 : st0.state.created = false := by
        rw [hst0, addRefs_created]
        rfl
      have hdeps0 : st0.state.deps = [] := by
        rw [hst0, addRefs_deps]
        rfl
      have hlkG1 : aLookup sid g1.heap = some st0 := by
        rw [hg1heap, hsid, aLookup_aSet_self, hst0]
      have hcI : (initFields env drv st0).state.created = false := hc0
      have hpW : HPost none s.g.nextId g1
          { g1 with heap := aSet sid (initFields env drv st0) g1.heap } :=
        hpost_aSet_noncreated hwf1 hlkG1 hc0 hcI rfl (fun hpe => nomatch hpe)
          (fun d hd => Or.inl hd) hpIntern.hNext (Or.inl (le_of_eq hsid.symm))
      have hpC : HPost none s.g.nextId s.g
          { g1 with heap := aSet sid (initFields env drv st0) g1.heap } :=
        hpIntern.transHP hpW (le_refl _) hwf hdc
      have hwfC : WFg { g1 with heap := aSet sid (initFields env drv st0) g1.heap } :=
        hpC.hWF hwf
      have hdcC : DepsCreated { g1 with heap := aSet sid (initFields env drv st0) g1.heap } :=
        hpC.hDeps hwf hdc
      have hncC : ∀ x st,
          aLookup x (aSet sid (initFields env drv st0) g1.heap) = some st →
          s.g.nextId ≤ x → st.state.created = false := by
        intro x st hx hge
        by_cases hxs : x = sid
        · subst hxs
          rw [aLookup_aSet_self] at hx
          injection hx with h7
          rw [← h7]
          exact hcI
        · rw [aLookup_aSet_ne _ _ hxs] at hx
          exact internStep_no_fresh_created heq hwf x st hx hge
      have soA : StepsOut none s cs
          { s with g := { g1 with heap := aSet sid (initFields env drv st0) g1.heap },
                   events := [Event.readDrv dp] ++ s.events } cs :=
        StepsOut.mk' hpC hncC hbound
          (by
            intro e he
            rcases List.mem_singleton.1 he with rfl
            exact ⟨dp, rfl⟩)
      split at h
      case isTrue hval =>
        -- every output valid: the step is unnecessary
        injection h with h2
        injection h2 with ha hb
        injection hb with hb1 hb2
        subst ha
        subst hb1
        subst hb2
        refine ⟨(soA.castEnd (by simp)).retagCS rfl, ?_⟩
        intro x hx
        cases hx
      case isFalse hval =>
      split at h
      case h_1 e hdeps => cases h
      case h_2 s4 cs2 hdeps =>
      split at h
      case h_1 hlk2 => cases h
      case h_2 st2 hlk2 =>
      split at h
      case isTrue hcr2 => cases h
      case isFalse hcr2 =>
      injection h with h2
      injection h2 with ha hb
      injection hb with hb1 hb2
      subst ha
      subst hb1
      subst hb2
      -- apply the dependency-loop induction hypothesis
      have hboundD : ∀ x ∈ insertSid sid cs.newSteps, x < g1.nextId := by
        intro x hx
        rcases mem_insertSid.1 hx with rfl | hx
        · omega
        · have := hbound x hx
          omega
      have hparD : ∀ pst, aLookup sid (aSet sid (initFields env drv st0) g1.heap) = some pst →
          pst.state.created = false := by
        intro pst hp
        rw [aLookup_aSet_self] at hp
        injection hp with h7
        rw [← h7]
        exact hcI
      have dOut := ihD sid drv.inputDrvs _ _ s4 cs2 hwfC hdcC hboundD
        (by show sid < g1.nextId; omega) hparD hdeps
      have hwf4 : WFg s4.g := dOut.hp.hWF hwfC
      have hdc4 : DepsCreated s4.g := dOut.hp.hDeps hwfC hdcC
      have hc2' : st2.state.created = false := by
        rw [Bool.not_eq_true] at hcr2
        exact hcr2
      replace hlk2 : aLookup sid s4.g.heap = some st2 := hlk2
      have hlkC : aLookup sid (aSet sid (initFields env drv st0) g1.heap) =
          some (initFields env drv st0) := aLookup_aSet_self _ _ _
      have hall : ∀ d ∈ st2.state.deps, createdB s4.g d = true := by
        intro d hd
        have h9 := dOut.hp.parentDeps hlkC hcI st2 hlk2 d hd
        rcases h9 with h9 | h9
        · rw [show (initFields env drv st0).state.deps = st0.state.deps from rfl, hdeps0] at h9
          cases h9
        · exact h9
      have hpFin : HPost none s.g.nextId s4.g
          { s4.g with heap := aSet sid (markCreated st2) s4.g.heap } :=
        hpost_aSet_finalize hwf4 hlk2 hc2' rfl rfl hall (le_of_eq hsid.symm)
          (fun q hq => nomatch hq)
      have hpD : HPost none s.g.nextId
          { g1 with heap := aSet sid (initFields env drv st0) g1.heap } s4.g :=
        dOut.hp.toNone hpIntern.hNext (le_of_eq hsid.symm)
      have hpAll : HPost none s.g.nextId s.g
          { s4.g with heap := aSet sid (markCreated st2) s4.g.heap } :=
        (hpC.transHP hpD (le_refl _) hwf hdc).transHP hpFin (le_refl _) hwf hdc
      have hlk5self : aLookup sid (aSet sid (markCreated st2) s4.g.heap) =
          some (markCreated st2) := aLookup_aSet_self _ _ _
      have hdrv2 : st2.drv = some drv := by
        rcases dOut.hp.hParent sid rfl (initFields env drv st0) hlkC hcI with
          ⟨pst1, hl1, _, _, hdrv1, _⟩
        rw [hlk2] at hl1
        injection hl1 with h7
        rw [← h7] at hdrv1
        exact hdrv1
      have hsidnotin : sid ∉ cs.newSteps := by
        intro hmem
        have := hbound sid hmem
        omega
      have hsidin2 : sid ∈ cs2.newSteps := dOut.hNSmono sid mem_insertSid_self
      have hNSmonoT : ∀ x ∈ cs.newSteps, x ∈ cs2.newSteps := by
        intro x hx
        exact dOut.hNSmono x (mem_insertSid_of_mem hx)
      have hNRmonoT : ∀ x ∈ s.newRunnable, x ∈ s4.newRunnable := by
        intro x hx
        exact dOut.hNRmono x (soA.hNRmono x hx)
      have hNSnewT : ∀ x ∈ cs2.newSteps, x ∈ cs.newSteps ∨
          ∃ st, aLookup x (aSet sid (markCreated st2) s4.g.heap) = some st ∧
            st.state.created = true ∧ st.drv ≠ none := by
        intro x hx
        rcases dOut.hNSnew x hx with hx2 | ⟨st, hl, hc, hd⟩
        · rcases mem_insertSid.1 hx2 with rfl | hx3
          · right
            refine ⟨markCreated st2, hlk5self, rfl, ?_⟩
            show st2.drv ≠ none
            rw [hdrv2]
            intro hno
            cases hno
          · left
            exact hx3
        · right
          have hxs : x ≠ sid := by
            intro he
            subst he
            rw [hlk2] at hl
            injection hl with h7
            subst h7
            rw [hc2'] at hc
            cases hc
          refine ⟨st, ?_, hc, hd⟩
          rw [aLookup_aSet_ne _ _ hxs]
          exact hl
      have hEvT : ∀ e ∈ s4.events, e ∈ s.events ∨ ∃ p, e = Event.readDrv p := by
        intro e he
        rcases dOut.hEv e he with he2 | he2
        · replace he2 : e ∈ Event.readDrv dp :: s.events := he2
          rcases List.mem_cons.1 he2 with rfl | he3
          · right
            exact ⟨dp, rfl⟩
          · left
            exact he3
        · right
          exact he2
      have hFreshT : ∀ x st, aLookup x (aSet sid (markCreated st2) s4.g.heap) = some st →
          s.g.nextId ≤ x → st.state.created = true → x ∈ cs2.newSteps := by
        intro x st hl hge hc
        by_cases hxs : x = sid
        · subst hxs
          exact hsidin2
        · rw [aLookup_aSet_ne _ _ hxs] at hl
          by_cases hge2 : g1.nextId ≤ x
          · exact dOut.hFresh x st hl hge2 hc
          · omega
      have hNSfreshT : ∀ x ∈ cs2.newSteps, x ∉ cs.newSteps → s.g.nextId ≤ x := by
        intro x hx hxn
        by_cases hx2 : x ∈ insertSid sid cs.newSteps
        · rcases mem_insertSid.1 hx2 with rfl | hx3
          · omega
          · exact absurd hx3 hxn
        · have h9 : g1.nextId ≤ x := dOut.hNSfreshIds x hx hx2
          omega
      have hRetT : ∀ x, (some sid : Option Nat) = some x →
          ∃ st, aLookup x (aSet sid (markCreated st2) s4.g.heap) = some st ∧
            st.state.created = true := by
        intro x hx
        injection hx with hx2
        subst hx2
        exact ⟨markCreated st2, hlk5self, rfl⟩
      by_cases hemp : st2.state.deps.isEmpty = true
      · rw [if_pos hemp]
        have hemp' : st2.state.deps = [] := by
          cases hd : st2.state.deps with
          | nil => rfl
          | cons a l =>
            rw [hd] at hemp
            cases hemp
        refine ⟨⟨hpAll, hNSmonoT, ?_, hNSnewT, hNSfreshT, ?_, ?_, hFreshT, ?_, dOut.hBM, dOut.hNB,
          dOut.hNA, dOut.hND, dOut.hNRd, hEvT⟩, hRetT⟩
        · intro x hx
          exact mem_insertSid_of_mem (hNRmonoT x hx)
        · intro x hx
          rcases mem_insertSid.1 hx with rfl | hx2
          · right
            exact ⟨hsidin2, hsidnotin, markCreated st2,  hlk5self, rfl,
              by show st2.state.deps = []; exact hemp'⟩
          · rcases dOut.hNRnew x hx2 with hx3 | ⟨hxc, hxn, st, hl, hc, hd⟩
            · left
              exact hx3
            · right
              refine ⟨hxc, fun hmem => hxn (mem_insertSid_of_mem hmem), ?_⟩
              have hxs : x ≠ sid := by
                intro he
                subst he
                exact hxn mem_insertSid_self
              refine ⟨st, ?_, hc, hd⟩
              rw [aLookup_aSet_ne _ _ hxs]
              exact hl
        · intro x hx hxn st hl hd
          by_cases hxs : x = sid
          · subst hxs
            exact mem_insertSid_self
          · rw [aLookup_aSet_ne _ _ hxs] at hl
            have hxn2 : x ∉ insertSid sid cs.newSteps := by
              intro hmem
              rcases mem_insertSid.1 hmem with rfl | hmem2
              · exact hxs rfl
              · exact hxn hmem2
            exact mem_insertSid_of_mem (dOut.hNRif x hx hxn2 st hl hd)
        · intro x hx
          exact dOut.hNSbound x hx
      · rw [if_neg hemp]
        refine ⟨⟨hpAll, hNSmonoT, hNRmonoT, hNSnewT, hNSfreshT, ?_, ?_, hFreshT, ?_, dOut.hBM,
          dOut.hNB, dOut.hNA, dOut.hND, dOut.hNRd, hEvT⟩, hRetT⟩
        · intro x hx
          rcases dOut.hNRnew x hx with hx3 | ⟨hxc, hxn, st, hl, hc, hd⟩
          · left
            exact hx3
          · right
            refine ⟨hxc, fun hmem => hxn (mem_insertSid_of_mem hmem), ?_⟩
            have hxs : x ≠ sid := by
              intro he
              subst he
              exact hxn mem_insertSid_self
            refine ⟨st, ?_, hc, hd⟩
            rw [aLookup_aSet_ne _ _ hxs]
            exact hl
        · intro x hx hxn st hl hd
          by_cases hxs : x = sid
          · subst hxs
            rw [hlk5self] at hl
            injection hl with h7
            rw [← h7] at hd
            replace hd : st2.state.deps = [] := hd
            rw [hd] at hemp
            exact absurd rfl hemp
          · rw [aLookup_aSet_ne _ _ hxs] at hl
            have hxn2 : x ∉ insertSid sid cs.newSteps := by
              intro hmem
              rcases mem_insertSid.1 hmem with rfl | hmem2
              · exact hxs rfl
              · exact hxn hmem2
            exact dOut.hNRif x hx hxn2 st hl hd
        · intro x hx
          exact dOut.hNSbound x hx
    · intro parent inputs s cs s1 cs1 hwf hdc hbound hplt hpar h
      cases inputs with
      | nil =>
        simp only [createStepDeps] at h
        injection h with h2
        injection h2 with hb1 hb2
        subst hb1
        subst hb2
        exact StepsOut.reflSO _ _ _ hbound hwf
      | cons p rest =>
        simp only [createStepDeps] at h
        split at h
        case h_1 e heq => cases h
        case h_2 dep? s1' cs1' heq =>
        have csOut := ihS p none (some parent) s cs dep? s1' cs1' hwf hdc hbound heq
        obtain ⟨soS, hRetS⟩ := csOut
        have soW : StepsOut (some parent) s cs s1' cs1' := soS.weakenSO hplt
        have hwf1 : WFg s1'.g := soW.hp.hWF hwf
        have hdc1 : DepsCreated s1'.g := soW.hp.hDeps hwf hdc
        have hpar1 : ∀ pst, aLookup parent s1'.g.heap = some pst →
            pst.state.created = false :=
          soW.hp.parentStays hplt hpar
        have hplt1 : parent < s1'.g.nextId := lt_of_lt_of_le hplt soW.hp.hNext
        split at h
        case h_1 _hstray =>
          -- dependency was unnecessary: recurse directly
          have rOut := ihD parent rest s1' cs1' s1 cs1 hwf1 hdc1 soW.hNSbound hplt1 hpar1 h
          exact soW.transSO rOut hwf hdc
        case h_2 _hstray dep =>
          split at h
          case h_1 hplk => cases h
          case h_2 pst hplk =>
          replace hplk : aLookup parent s1'.g.heap = some pst := hplk
          have hpstc : pst.state.created = false := hpar1 pst hplk
          have hdepc : createdB s1'.g dep = true := by
            rcases hRetS dep rfl with ⟨st, hl, hc⟩
            exact createdB_of_lookup hl hc
          have hpAdd : HPost (some parent) s1'.g.nextId s1'.g
              { s1'.g with heap := aSet parent (addDepTo pst dep) s1'.g.heap } :=
            hpost_aSet_noncreated hwf1 hplk hpstc hpstc rfl (fun _ => rfl)
              (by
                intro d hd
                replace hd : d ∈ insertSid dep pst.state.deps := hd
                rcases mem_insertSid.1 hd with rfl | hd2
                · right
                  exact hdepc
                · left
                  exact hd2)
              (le_refl _) (Or.inr rfl)
          have hncAdd : ∀ x st,
              aLookup x (aSet parent (addDepTo pst dep) s1'.g.heap) = some st →
              s1'.g.nextId ≤ x → st.state.created = false := by
            intro x st hx hge
            have hxs : x ≠ parent := by omega
            rw [aLookup_aSet_ne _ _ hxs] at hx
            rw [hwf1.lookup_ge_none hge] at hx
            cases hx
          have soAdd : StepsOut (some parent) s1' cs1'
              { s1' with g := { s1'.g with heap := aSet parent (addDepTo pst dep) s1'.g.heap } }
              cs1' :=
            StepsOut.ofHeap hpAdd hncAdd soW.hNSbound
          have hwf2 : WFg { s1'.g with heap := aSet parent (addDepTo pst dep) s1'.g.heap } :=
            hpAdd.hWF hwf1
          have hdc2 : DepsCreated
              { s1'.g with heap := aSet parent (addDepTo pst dep) s1'.g.heap } :=
            hpAdd.hDeps hwf1 hdc1
          have hpar2 : ∀ pst2, aLookup parent
              (aSet parent (addDepTo pst dep) s1'.g.heap) = some pst2 →
              pst2.state.created = false := by
            intro pst2 hp2
            rw [aLookup_aSet_self] at hp2
            injection hp2 with h7
            rw [← h7]
            exact hpstc
          have rOut := ihD parent rest _ cs1' s1 cs1 hwf2 hdc2 soAdd.hNSbound
            (by
              show parent < s1'.g.nextId
              exact hplt1) hpar2 h
          exact soW.transSO (soAdd.transSO rOut hwf1 hdc1) hwf hdc

/-! ## newSteps is monotone (no hypotheses needed) -/

theorem newSteps_mono (env : Env) : ∀ fuel : Nat,
    (∀ (dp : Path) (rb rs : Option Nat) (s : S) (cs : CS) (r : Option Nat) (s1 : S) (cs1 : CS),
      createStep env fuel dp rb rs s cs = .ok (r, s1, cs1) →
      ∀ x ∈ cs.newSteps, x ∈ cs1.newSteps) ∧
    (∀ (parent : Nat) (inputs : List Path) (s : S) (cs : CS) (s1 : S) (cs1 : CS),
      createStepDeps env fuel parent inputs s cs = .ok (s1, cs1) →
      ∀ x ∈ cs.newSteps, x ∈ cs1.newSteps) := by
  intro fuel
  induction fuel with
  | zero =>
    constructor
    · intro dp rb rs s cs r s1 cs1 h
      simp only [createStep] at h
      cases h
    · intro parent inputs s cs s1 cs1 h
      cases inputs with
      | nil =>
        simp only [createStepDeps] at h
        injection h with h2
        injection h2 with hb1 hb2
        subst hb2
        intro x hx
        exact hx
      | cons p rest =>
        simp only [createStepDeps] at h
        cases h
  | succ n ih =>
    obtain ⟨ihS, ihD⟩ := ih
    constructor
    · intro dp rb rs s cs r s1 cs1 h
      simp only [createStep] at h
      split at h
      case isTrue hfin =>
        injection h with h2
        injection h2 with ha hb
        injection hb with hb1 hb2
        subst hb2
        intro x hx
        exact hx
      case isFalse hfin =>
      split at h
      case h_1 e heq => cases h
      case h_2 sid isNew g1 heq =>
      split at h
      case isTrue hnew =>
        injection h with h2
        injection h2 with ha hb
        injection hb with hb1 hb2
        subst hb2
        intro x hx
        exact hx
      case isFalse hnew =>
      split at h
      case h_1 hrd => cases h
      case h_2 drv hrd =>
      split at h
      case h_1 hlk => cases h
      case h_2 st0 hlk =>
      split at h
      case isTrue hval =>
        injection h with h2
        injection h2 with ha hb
        injection hb with hb1 hb2
        subst hb2
        intro x hx
        exact hx
      case isFalse hval =>
      split at h
      case h_1 e hdeps => cases h
      case h_2 s4 cs2 hdeps =>
      split at h
      case h_1 hlk2 => cases h
      case h_2 st2 hlk2 =>
      split at h
      case isTrue hcr2 => cases h
      case isFalse hcr2 =>
      injection h with h2
      injection h2 with ha hb
      injection hb with hb1 hb2
      subst hb2
      intro x hx
      exact ihD _ _ _ _ _ _ hdeps x (mem_insertSid_of_mem hx)
    · intro parent inputs s cs s1 cs1 h
      cases inputs with
      | nil =>
        simp only [createStepDeps] at h
        injection h with h2
        injection h2 with hb1 hb2
        subst hb2
        intro x hx
        exact hx
      | cons p rest =>
        simp only [createStepDeps] at h
        split at h
        case h_1 e heq => cases h
        case h_2 dep? s1a cs1a heq =>
        split at h
        case h_1 _hstray =>
          intro x hx
          exact ihD _ _ _ _ _ _ h x (ihS _ _ _ _ _ _ _ _ heq x hx)
        case h_2 _hstray dep =>
          split at h
          case h_1 hplk => cases h
          case h_2 pst hplk =>
          intro x hx
          exact ihD _ _ _ _ _ _ h x (ihS _ _ _ _ _ _ _ _ heq x hx)

/-! ## Claim theorems: C3 and C4 -/

/-- C3: for every Step initialised by `createStep`, `created` is set to true
only once the derivation has been recorded on the step and all dependency
steps linked into `deps` are themselves initialised; the step is inserted
into `newRunnable` if and only if its dependency set is empty at that
moment; and no step is ever in `newRunnable` while its `created` flag is
false. -/
theorem C3_createStep_created_runnable (env : Env) (fuel : Nat) (dp : Path)
    (rb rs : Option Nat) (s : S) (cs : CS) (r : Option Nat) (s1 : S) (cs1 : CS)
    (hwf : WFg s.g) (hdc : DepsCreated s.g)
    (hbound : ∀ x ∈ cs.newSteps, x < s.g.nextId)
    (hrun : ∀ x ∈ s.newRunnable, createdB s.g x = true)
    (h : createStep env fuel dp rb rs s cs = .ok (r, s1, cs1)) :
    (∀ x ∈ cs1.newSteps, x ∉ cs.newSteps →
      ∃ st, aLookup x s1.g.heap = some st ∧ st.state.created = true ∧ st.drv ≠ none ∧
        ∀ d ∈ st.state.deps, createdB s1.g d = true) ∧
    (∀ x ∈ cs1.newSteps, x ∉ cs.newSteps →
      ∀ st, aLookup x s1.g.heap = some st → (x ∈ s1.newRunnable ↔ st.state.deps = [])) ∧
    (∀ x ∈ s1.newRunnable, createdB s1.g x = true) := by
  obtain ⟨so, _⟩ :=
    (createStep_createStepDeps_out env fuel).1 dp rb rs s cs r s1 cs1 hwf hdc hbound h
  have hdc1 : DepsCreated s1.g := so.hp.hDeps hwf hdc
  refine ⟨?_, ?_, ?_⟩
  · intro x hx hxn
    rcases so.hNSnew x hx with hx2 | ⟨st, hl, hc, hd⟩
    · exact absurd hx2 hxn
    · exact ⟨st, hl, hc, hd, hdc1.of_lookup hl hc⟩
  · intro x hx hxn st hl
    constructor
    · intro hr
      rcases so.hNRnew x hr with hr2 | ⟨_, _, st2, hl2, _, hd2⟩
      · have hge := so.hNSfreshIds x hx hxn
        rcases createdB_eq_true (hrun x hr2) with ⟨st0, hl0, _⟩
        have := hwf.lookup_lt hl0
        omega
      · rw [hl2] at hl
        injection hl with h7
        rw [← h7]
        exact hd2
    · intro hd
      exact so.hNRif x hx hxn st hl hd
  · intro x hx
    rcases so.hNRnew x hx with hx2 | ⟨_, _, st, hl, hc, _⟩
    · exact so.hp.createdMono (hrun x hx2)
    · exact createdB_of_lookup hl hc

/-- The interner installs a fresh step when no live entry exists. -/
theorem internStep_fresh_of {g : GState} {dp : Path} (rb rs : Option Nat)
    (hnl : ∀ x, aLookup dp g.stepsMap = some x → x ∉ g.alive) :
    ∃ gF, internStep g dp rb rs = .ok (g.nextId, true, gF) ∧
      gF.heap = aSet g.nextId (addRefs (stepOfNew dp) rb rs) g.heap ∧
      gF.nextId = g.nextId + 1 := by
  unfold internStep
  split
  case h_1 x hprev =>
    rw [if_neg (hnl x hprev)]
    unfold internFresh
    rw [if_pos (show (stepOfNew dp).state.created = false from rfl)]
    exact ⟨_, rfl, rfl, rfl⟩
  case h_2 hprev =>
    unfold internFresh
    rw [if_pos (show (stepOfNew dp).state.created = false from rfl)]
    exact ⟨_, rfl, rfl, rfl⟩

/-- C4: when every declared output of the derivation is valid in the store,
`createStep` records the derivation path in `finishedDrvs` and returns none,
touching neither `newSteps` nor `newRunnable`; a later call finding the path
in `finishedDrvs` returns none immediately; and when at least one output is
invalid, the freshly interned step is inserted into `newSteps`. -/
theorem C4_createStep_valid_outputs (env : Env) (fuel : Nat) (dp : Path)
    (rb rs : Option Nat) (s : S) (cs : CS) (drv : Derivation)
    (hnf : dp ∉ cs.finishedDrvs)
    (hnl : ∀ x, aLookup dp s.g.stepsMap = some x → x ∉ s.g.alive)
    (hrd : readDerivation env.store dp = some drv) :
    (drv.outputs.all (fun o => env.store.isValidPath o.2) = true →
      ∃ s1, createStep env (fuel + 1) dp rb rs s cs =
        .ok (none, s1, { cs with finishedDrvs := dp :: cs.finishedDrvs }) ∧
        s1.newRunnable = s.newRunnable) ∧
    (∀ (fuel2 : Nat) (rb2 rs2 : Option Nat) (s2 : S) (cs2 : CS), dp ∈ cs2.finishedDrvs →
      createStep env (fuel2 + 1) dp rb2 rs2 s2 cs2 = .ok (none, s2, cs2)) ∧
    (drv.outputs.all (fun o => env.store.isValidPath o.2) = false →
      ∀ r s1 cs1, createStep env (fuel + 1) dp rb rs s cs = .ok (r, s1, cs1) →
        r = some s.g.nextId ∧ s.g.nextId ∈ cs1.newSteps) := by
  obtain ⟨gF, hIs, hgFheap, hgFnext⟩ := internStep_fresh_of rb rs hnl
  have hlkF : aLookup s.g.nextId gF.heap = some (addRefs (stepOfNew dp) rb rs) := by
    rw [hgFheap, aLookup_aSet_self]
  refine ⟨?_, ?_, ?_⟩
  · intro hval
    refine ⟨{ s with
        g := { gF with
          heap := aSet s.g.nextId (initFields env drv (addRefs (stepOfNew dp) rb rs)) gF.heap }
        events := Event.readDrv dp :: s.events }, ?_, rfl⟩
    simp only [createStep, if_neg hnf, hIs]
    rw [if_neg (show ¬(true = false) from fun hcontra => Bool.noConfusion hcontra)]
    simp only [hrd, hlkF, hval, if_true]
  · intro fuel2 rb2 rs2 s2 cs2 hin
    simp only [createStep, if_pos hin]
  · intro hval r s1 cs1 h
    simp only [createStep, if_neg hnf, hIs] at h
    rw [if_neg (show ¬(true = false) from fun hcontra => Bool.noConfusion hcontra)] at h
    simp only [hrd, hlkF, hval, Bool.false_eq_true, if_false] at h
    split at h
    case h_1 e hdeps => cases h
    case h_2 s4 cs2 hdeps =>
    split at h
    case h_1 hlk2 => cases h
    case h_2 st2 hlk2 =>
    split at h
    case isTrue hcr2 => cases h
    case isFalse hcr2 =>
    injection h with h2
    injection h2 with ha hb
    injection hb with hb1 hb2
    subst hb2
    refine ⟨ha.symm, ?_⟩
    exact (newSteps_mono env fuel).2 _ _ _ _ _ _ hdeps _ mem_insertSid_self

/-! ## Claim C2: the interner keeps at most one live step per drvPath -/

/-- At most one live (non-expired) step exists per derivation path. -/
def UniqueLive (g : GState) : Prop :=
  ∀ a ∈ g.heap, ∀ b ∈ g.heap, a.1 ∈ g.alive → b.1 ∈ g.alive →
    a.2.drvPath = b.2.drvPath → a.1 = b.1

/-- Every live step is indexed by the interner under its own path. -/
def InternerComplete (g : GState) : Prop :=
  ∀ a ∈ g.heap, a.1 ∈ g.alive → aLookup a.2.drvPath g.stepsMap = some a.1

/-- C2: the interner critical section of `createStep` maintains at most one
live Step per drvPath: a live entry is returned with `is_new = false`; an
expired entry is erased and a fresh uninitialised Step (only `drvPath` set,
plus the back-references just linked) is installed and returned with
`is_new = true`; a missing entry leads to the same fresh installation; and
the interner invariant — for every drvPath with at least one live Step, the
map holds exactly one non-expired entry, namely that Step — is preserved. -/
theorem C2_internStep_interner (g : GState) (dp : Path) (rb rs : Option Nat)
    (hwf : WFg g) (hu : UniqueLive g) (hic : InternerComplete g) :
    (∀ sid st, aLookup dp g.stepsMap = some sid → sid ∈ g.alive →
      aLookup sid g.heap = some st → st.state.created = true →
      ∃ g1, internStep g dp rb rs = .ok (sid, false, g1)) ∧
    (∀ sid, aLookup dp g.stepsMap = some sid → sid ∉ g.alive →
      ∃ g1, internStep g dp rb rs = .ok (g.nextId, true, g1) ∧
        aLookup dp g1.stepsMap = some g.nextId ∧
        aLookup g.nextId g1.heap = some (addRefs (stepOfNew dp) rb rs)) ∧
    (aLookup dp g.stepsMap = none →
      ∃ g1, internStep g dp rb rs = .ok (g.nextId, true, g1) ∧
        aLookup dp g1.stepsMap = some g.nextId ∧
        aLookup g.nextId g1.heap = some (addRefs (stepOfNew dp) rb rs)) ∧
    (∀ sid isNew g1, internStep g dp rb rs = .ok (sid, isNew, g1) →
      WFg g1 ∧ UniqueLive g1 ∧ InternerComplete g1) := by
  refine ⟨?_, ?_, ?_, ?_⟩
  · intro sid st hprev halive hlook hcr
    unfold internStep
    split
    case h_1 x hprev2 =>
      rw [hprev] at hprev2
      injection hprev2 with h2
      subst h2
      rw [if_pos halive]
      split
      case h_1 hlook2 =>
        rw [hlook] at hlook2
        cases hlook2
      case h_2 st2 hlook2 =>
        rw [hlook] at hlook2
        injection hlook2 with h3
        subst h3
        rw [if_pos hcr]
        exact ⟨_, rfl⟩
    case h_2 hprev2 =>
      rw [hprev] at hprev2
      cases hprev2
  · intro sid hprev hstale
    unfold internStep
    split
    case h_1 x hprev2 =>
      rw [hprev] at hprev2
      injection hprev2 with h2
      subst h2
      rw [if_neg hstale]
      unfold internFresh
      rw [if_pos (show (stepOfNew dp).state.created = false from rfl)]
      refine ⟨_, rfl, ?_, ?_⟩
      · show aLookup dp (aSet dp g.nextId (aErase dp g.stepsMap)) = _
        rw [aLookup_aSet_self]
      · show aLookup g.nextId (aSet g.nextId (addRefs (stepOfNew dp) rb rs) g.heap) = _
        rw [aLookup_aSet_self]
    case h_2 hprev2 =>
      rw [hprev] at hprev2
      cases hprev2
  · intro hprev
    unfold internStep
    split
    case h_1 x hprev2 =>
      rw [hprev] at hprev2
      cases hprev2
    case h_2 hprev2 =>
      unfold internFresh
      rw [if_pos (show (stepOfNew dp).state.created = false from rfl)]
      refine ⟨_, rfl, ?_, ?_⟩
      · show aLookup dp (aSet dp g.nextId g.stepsMap) = _
        rw [aLookup_aSet_self]
      · show aLookup g.nextId (aSet g.nextId (addRefs (stepOfNew dp) rb rs) g.heap) = _
        rw [aLookup_aSet_self]
  · intro sid isNew g1 h
    have hpI : HPost none g.nextId g g1 := internStep_hpost h hwf
    refine ⟨hpI.hWF hwf, ?_⟩
    rcases internStep_ok h with ⟨_, st, hprev, halive, hlook, hcr, hg1⟩ |
      ⟨_, hsid, hheap, halive1, hnext1, hsm⟩
    · -- live entry: only back-references were appended
      subst hg1
      constructor
      · intro a ha b hb haal hbal hpath
        replace haal : a.1 ∈ g.alive := haal
        replace hbal : b.1 ∈ g.alive := hbal
        have hmem : (sid, addRefs st rb rs) ∈ aSet sid (addRefs st rb rs) g.heap :=
          aLookup_mem (aLookup_aSet_self _ _ _)
        rcases mem_aSet ha with ha2 | ha2 <;> rcases mem_aSet hb with hb2 | hb2
        · rw [ha2, hb2]
        · rw [ha2] at hpath haal ⊢
          have : st.drvPath = b.2.drvPath := by
            rw [← hpath, addRefs_drvPath]
          exact hu (sid, st) (aLookup_mem hlook) b hb2 halive hbal this
        · rw [hb2] at hpath hbal ⊢
          have : a.2.drvPath = st.drvPath := by
            rw [hpath, addRefs_drvPath]
          exact hu a ha2 (sid, st) (aLookup_mem hlook) haal halive this
        · exact hu a ha2 b hb2 haal hbal hpath
      · intro a ha haal
        replace haal : a.1 ∈ g.alive := haal
        rcases mem_aSet ha with ha2 | ha2
        · rw [ha2]
          show aLookup (addRefs st rb rs).drvPath (aSet dp sid g.stepsMap) = some sid
          rw [addRefs_drvPath]
          by_cases hpp : st.drvPath = dp
          · rw [hpp, aLookup_aSet_self]
          · rw [aLookup_aSet_ne _ _ hpp]
            exact hic (sid, st) (aLookup_mem hlook) halive
        · show aLookup a.2.drvPath (aSet dp sid g.stepsMap) = some a.1
          have hold := hic a ha2 haal
          by_cases hpp : a.2.drvPath = dp
          · rw [hpp] at hold
            rw [hprev] at hold
            injection hold with h3
            rw [hpp, aLookup_aSet_self, h3]
          · rw [aLookup_aSet_ne _ _ hpp]
            exact hold
    · -- fresh installation (map entry was absent or stale)
      have hnolive : ∀ b ∈ g.heap, b.1 ∈ g.alive → b.2.drvPath ≠ dp := by
        intro b hb hbal hbp
        have hold := hic b hb hbal
        rw [hbp] at hold
        rcases hsm with ⟨hnone, _⟩ | ⟨x, hsome, hxdead, _⟩
        · rw [hnone] at hold
          cases hold
        · rw [hsome] at hold
          injection hold with h3
          rw [← h3] at hbal
          exact hxdead hbal
      have hkey : ∀ b ∈ g.heap, b.1 ≠ g.nextId := by
        intro b hb hbe
        have := hwf.1 b hb
        omega
      constructor
      · intro a ha b hb haal hbal hpath
        replace ha : a ∈ g1.heap := ha
        replace hb : b ∈ g1.heap := hb
        rw [hheap] at ha hb
        replace haal : a.1 ∈ g1.alive := haal
        replace hbal : b.1 ∈ g1.alive := hbal
        rw [halive1] at haal hbal
        rcases mem_aSet ha with ha2 | ha2 <;> rcases mem_aSet hb with hb2 | hb2
        · rw [ha2, hb2]
        · rcases List.mem_cons.1 hbal with hbe | hbal2
          · exact absurd hbe (hkey b hb2)
          · exfalso
            apply hnolive b hb2 hbal2
            rw [← hpath, ha2, addRefs_drvPath]
            rfl
        · rcases List.mem_cons.1 haal with hae | haal2
          · exact absurd hae (hkey a ha2)
          · exfalso
            apply hnolive a ha2 haal2
            rw [hpath, hb2, addRefs_drvPath]
            rfl
        · rcases List.mem_cons.1 haal with hae | haal2
          · exact absurd hae (hkey a ha2)
          · rcases List.mem_cons.1 hbal with hbe | hbal2
            · exact absurd hbe (hkey b hb2)
            · exact hu a ha2 b hb2 haal2 hbal2 hpath
      · intro a ha haal
        replace ha : a ∈ g1.heap := ha
        rw [hheap] at ha
        replace haal : a.1 ∈ g1.alive := haal
        rw [halive1] at haal
        rcases mem_aSet ha with ha2 | ha2
        · rw [ha2]
          show aLookup (addRefs (stepOfNew dp) rb rs).drvPath g1.stepsMap = some g.nextId
          rw [addRefs_drvPath]
          show aLookup dp g1.stepsMap = some g.nextId
          rcases hsm with ⟨_, hsm2⟩ | ⟨_, _, _, hsm2⟩ <;> rw [hsm2, aLookup_aSet_self]
        · rcases List.mem_cons.1 haal with hae | haal2
          · exact absurd hae (hkey a ha2)
          · have hold := hic a ha2 haal2
            have hpp : a.2.drvPath ≠ dp := hnolive a ha2 haal2
            rcases hsm with ⟨_, hsm2⟩ | ⟨_, _, _, hsm2⟩
            · rw [hsm2, aLookup_aSet_ne _ _ hpp]
              exact hold
            · rw [hsm2, aLookup_aSet_ne _ _ hpp, aLookup_aErase_ne _ hpp]
              exact hold

def g0C2 : GState := { heap := [], alive := [], stepsMap := [], nextId := 0 }

def dpC2 : Path := "/d/a"

theorem C2_internStep_interner_witness :
    aLookup dpC2 g0C2.stepsMap = none ∧
    ∃ g1, internStep g0C2 dpC2 none none = .ok (g0C2.nextId, true, g1) ∧
      aLookup dpC2 g1.stepsMap = some g0C2.nextId ∧
      aLookup g0C2.nextId g1.heap = some (addRefs (stepOfNew dpC2) none none) :=
  ⟨rfl, (C2_internStep_interner g0C2 dpC2 none none
      (by constructor
          · intro kv h
            simp [g0C2] at h
          · constructor <;> simp [g0C2])
      (by intro a ha
          simp [g0C2] at ha)
      (by intro a ha
          simp [g0C2] at ha)).2.2.1 rfl⟩

/-! ## Concrete witness data: a one-derivation store -/

def dpW : Path := "/d/leaf"

def drvLeafW : Derivation :=
  { outputs := [("out", "/o/leaf")], inputDrvs := [], env := [], platform := "x86_64-linux" }

def storeW : Store := { validPaths := [], drvs := [(dpW, drvLeafW)] }

def envW : Env :=
  { store := storeW, buildOne := 0, localPlatforms := [], cachedFailPaths := [],
    machines := [], now := 7 }

def s0W : S :=
  { g := { heap := [], alive := [], stepsMap := [], nextId := 0 }, newRunnable := [],
    buildsMap := [], newBuilds := [], nrAdded := 0, nrBuildsDone := 0, nrBuildsRead := 0,
    events := [] }

def cs0W : CS := { finishedDrvs := [], newSteps := [] }

def s1W : S :=
  { g := { heap := [(0,
             { drvPath := dpW, drv := some drvLeafW, requiredSystemFeatures := [],
               preferLocalBuild := false,
               state := { deps := [], rdeps := [], builds := [], created := true } })],
           alive := [0], stepsMap := [(dpW, 0)], nextId := 1 },
    newRunnable := [0], buildsMap := [], newBuilds := [], nrAdded := 0,
    nrBuildsDone := 0, nrBuildsRead := 0, events := [Event.readDrv dpW] }

def cs1W : CS := { finishedDrvs := [], newSteps := [0] }

theorem C3_createStep_created_runnable_witness :
    (∀ x ∈ cs1W.newSteps, x ∉ cs0W.newSteps →
      ∃ st, aLookup x s1W.g.heap = some st ∧ st.state.created = true ∧ st.drv ≠ none ∧
        ∀ d ∈ st.state.deps, createdB s1W.g d = true) ∧
    (∀ x ∈ cs1W.newSteps, x ∉ cs0W.newSteps →
      ∀ st, aLookup x s1W.g.heap = some st → (x ∈ s1W.newRunnable ↔ st.state.deps = [])) ∧
    (∀ x ∈ s1W.newRunnable, createdB s1W.g x = true) :=
  C3_createStep_created_runnable envW 2 dpW none none s0W cs0W (some 0) s1W cs1W
    (by simp only [WFg]; decide)
    (by simp only [DepsCreated]; decide)
    (by decide)
    (by decide)
    rfl

def storeV : Store := { validPaths := ["/o/leaf"], drvs := [(dpW, drvLeafW)] }

def envV : Env := { envW with store := storeV }

theorem C4_createStep_valid_outputs_witness :
    (drvLeafW.outputs.all (fun o => envV.store.isValidPath o.2) = true →
      ∃ s1, createStep envV (1 + 1) dpW none none s0W cs0W =
        .ok (none, s1, { cs0W with finishedDrvs := dpW :: cs0W.finishedDrvs }) ∧
        s1.newRunnable = s0W.newRunnable) ∧
    (∀ (fuel2 : Nat) (rb2 rs2 : Option Nat) (s2 : S) (cs2 : CS), dpW ∈ cs2.finishedDrvs →
      createStep envV (fuel2 + 1) dpW rb2 rs2 s2 cs2 = .ok (none, s2, cs2)) ∧
    (drvLeafW.outputs.all (fun o => envV.store.isValidPath o.2) = false →
      ∀ r s1 cs1, createStep envV (1 + 1) dpW none none s0W cs0W = .ok (r, s1, cs1) →
        r = some s0W.g.nextId ∧ s0W.g.nextId ∈ cs1.newSteps) :=
  C4_createStep_valid_outputs envV 1 dpW none none s0W cs0W drvLeafW
    (by decide)
    (by intro x hx; simp [s0W, aLookup] at hx)
    (by decide)

/-! ## Claim C1: the high-water mark of the queue scan -/

/-- The high-water mark returned by the row loop is the maximum id among the
rows that survive the single-build pin; the builds-map membership filter does
not matter because the mark is updated before it (queue-monitor.cc:72-74). -/
theorem scanRows_fst (buildOne : Nat) (bm : List (Nat × Build)) :
    ∀ (rows : List QueuedRow) (last : Nat) (acc : List (Path × Build)),
      (scanRows buildOne bm rows last acc).1 =
        ((rows.filter (fun r => buildOne == 0 || r.id == buildOne)).map
          QueuedRow.id).foldl max last := by
  intro rows
  induction rows with
  | nil =>
    intro last acc
    rfl
  | cons r rest ih =>
    intro last acc
    have hlast : (if r.id > last then r.id else last) = max last r.id := by
      rw [Nat.max_def]
      split <;> split <;> omega
    by_cases hp : buildOne ≠ 0 ∧ r.id ≠ buildOne
    · have hf : (buildOne == 0 || r.id == buildOne) = false := by
        rcases hp with ⟨h1, h2⟩
        simp [h1, h2]
      simp only [scanRows]
      rw [if_pos hp]
      simp only [List.filter_cons, hf, Bool.false_eq_true, if_false]
      exact ih last acc
    · have ht : (buildOne == 0 || r.id == buildOne) = true := by
        rcases Decidable.not_and_iff_or_not.1 hp with h1 | h1 <;>
          simp only [ne_eq, Decidable.not_not] at h1 <;> simp [h1]
      simp only [scanRows]
      rw [if_neg hp]
      by_cases hb : (aLookup r.id bm).isSome = true
      · rw [if_pos hb, ih]
        simp only [List.filter_cons, ht, if_true, List.map_cons, List.foldl_cons, hlast]
      · rw [if_neg hb, ih]
        simp only [List.filter_cons, ht, if_true, List.map_cons, List.foldl_cons, hlast]

def envP : Env := { envW with buildOne := 2 }

def rowP2 : QueuedRow :=
  { id := 2, project := "p", jobset := "j", job := "a", drvPath := dpW,
    maxsilent := 0, timeout := 0 }

def rowP3 : QueuedRow :=
  { id := 3, project := "p", jobset := "j", job := "b", drvPath := dpW,
    maxsilent := 0, timeout := 0 }

def sP1 : S :=
  { g := { heap := [], alive := [], stepsMap := [], nextId := 0 },
    newRunnable := [], buildsMap := [], newBuilds := [], nrAdded := 1,
    nrBuildsDone := 1, nrBuildsRead := 1, events := [gcTxn 2 envW.now] }

/-- C1 counterexample: with the single-build pin set to build 2 and queued
rows 2 and 3, the scan returns high-water mark 2, while the maximum id
observed in the query result set is 3: a row discarded by the pin does not
advance the mark, because the pin filter (queue-monitor.cc:72) runs before
the high-water update (queue-monitor.cc:73). -/
theorem C1_highwater_counterexample :
    (∃ s1, getQueuedBuilds envP [rowP2, rowP3] 4 0 s0W = .ok (2, s1)) ∧
    ([rowP2, rowP3].map QueuedRow.id).foldl max 0 = 3 ∧ (2 : Nat) ≠ 3 :=
  ⟨⟨sP1, rfl⟩, rfl, by decide⟩

/-- C1 (corrected): the new high-water mark returned by `getQueuedBuilds`
equals the maximum id among the queried rows that survive the single-build
pin (rows discarded later by the builds-map membership check do still advance
it); rows discarded by the pin do not. -/
theorem C1_highwater (env : Env) (rows : List QueuedRow)
    (fuel lastBuildId : Nat) (s : S) (p : Nat) (s1 : S)
    (h : getQueuedBuilds env rows fuel lastBuildId s = .ok (p, s1)) :
    p = ((rows.filter (fun r => env.buildOne == 0 || r.id == env.buildOne)).map
          QueuedRow.id).foldl max lastBuildId := by
  simp only [getQueuedBuilds] at h
  split at h
  case h_1 e hd => cases h
  case h_2 s2 hd =>
    injection h with h2
    have h3 : (scanRows env.buildOne s.buildsMap rows lastBuildId []).1 = p :=
      congrArg Prod.fst h2
    rw [← h3]
    exact scanRows_fst env.buildOne s.buildsMap rows lastBuildId []

theorem C1_highwater_witness :
    getQueuedBuilds envP [rowP2, rowP3] 4 0 s0W = .ok (2, sP1) ∧
    2 = (([rowP2, rowP3].filter
          (fun r => envP.buildOne == 0 || r.id == envP.buildOne)).map
          QueuedRow.id).foldl max 0 :=
  ⟨rfl, C1_highwater envP [rowP2, rowP3] 4 0 s0W 2 sP1 rfl⟩

/-! ## Claim C6: the garbage-collected path -/

/-- C6: for a build whose derivation path is not a valid store path and that
is not yet finished in the database, `createBuild` commits exactly one
transaction — the Builds update with buildStatus Aborted, startTime = stopTime
= now and the garbage-collection errorMsg, guarded by `finished = 0` — and
increments `nrBuildsDone`; the resulting state is otherwise unchanged: no
`readDrv` event is emitted (readDerivation is never called) and the step
heap `g` is untouched (no Step is created). -/
theorem C6_gc_path (env : Env) (fuel : Nat) (build : Build) (s : S)
    (hinv : env.store.isValidPath build.drvPath = false)
    (hnf : build.finishedInDB = false) :
    createBuild env (fuel + 1) build s =
      .ok { s with nrAdded := s.nrAdded + 1,
                   events := gcTxn build.id env.now :: s.events,
                   nrBuildsDone := s.nrBuildsDone + 1 } := by
  simp only [createBuild]
  rw [if_pos hinv, if_pos hnf]

theorem C6_gc_path_witness :
    envW.store.isValidPath (rowBuild rowP2).drvPath = false ∧
    (rowBuild rowP2).finishedInDB = false ∧
    createBuild envW (0 + 1) (rowBuild rowP2) s0W =
      .ok { s0W with nrAdded := s0W.nrAdded + 1,
                     events := gcTxn (rowBuild rowP2).id envW.now :: s0W.events,
                     nrBuildsDone := s0W.nrBuildsDone + 1 } :=
  ⟨by decide, by decide, C6_gc_path envW 0 (rowBuild rowP2) s0W (by decide) (by decide)⟩

/-! ## Claim C5: classification of newSteps -/

/-- A step passes classification: no cached failure and a supporting machine. -/
def goodStepB (env : Env) (st : Step) : Bool :=
  !(checkCachedFailure env st) && env.machines.any (fun m => m.2.supportsStep st)

/-- The status pair chosen for the first failing step
(queue-monitor.cc:156-174). -/
def badVerdict (env : Env) (rootSid r : Nat) (st : Step) : BuildStatus × BuildStepStatus :=
  if checkCachedFailure env st = true then
    (if rootSid = r then BuildStatus.failed else BuildStatus.depFailed, BuildStepStatus.failed)
  else (BuildStatus.unsupported, BuildStepStatus.unsupported)

/-- C5: in the classification pass, steps with no cached failure and a
supporting machine are passed over; at the first bad step the chosen statuses
are Failed (root) / DepFailed (non-root) with step status Failed for a cached
failure, and Unsupported / Unsupported otherwise; one transaction writes the
failing build-step row and the Builds update (finished = 1, busy = 0, the
chosen status, startTime = stopTime = now, isCachedBuild = 1 exactly when the
status is not Unsupported, guarded by `finished = 0`); `finishedInDB` is set,
`nrBuildsDone` is incremented, and the pass aborts reporting a bad step — the
build is not published, the rest of the state (in particular `buildsMap`)
being untouched. -/
theorem C5_classify_first_bad (env : Env) (rootSid : Nat) (b : Build) :
    ∀ (pre : List Nat) (r : Nat) (rest : List Nat) (s : S) (st : Step),
      (∀ x ∈ pre, ∃ stx, aLookup x s.g.heap = some stx ∧ goodStepB env stx = true) →
      aLookup r s.g.heap = some st →
      goodStepB env st = false →
      b.finishedInDB = false →
      classify env rootSid (pre ++ r :: rest) b s =
        .ok (true, { b with finishedInDB := true },
          { s with events := failTxn b.id st.drvPath (badVerdict env rootSid r st).2
                     (badVerdict env rootSid r st).1 env.now :: s.events,
                   nrBuildsDone := s.nrBuildsDone + 1 }) := by
  intro pre
  induction pre with
  | nil =>
    intro r rest s st _hpre hlk hbad hnf
    simp only [List.nil_append, classify, hlk]
    by_cases hc : checkCachedFailure env st = true
    · rcases eq_or_ne rootSid r with hr | hr
      · simp [hc, hr, hnf, badVerdict]
      · simp [hc, hr, hnf, badVerdict]
    · have hc2 : checkCachedFailure env st = false := Bool.eq_false_iff.mpr hc
      have hsup : env.machines.any (fun m => m.2.supportsStep st) = false := by
        cases hx : env.machines.any (fun m => m.2.supportsStep st)
        · rfl
        · unfold goodStepB at hbad
          rw [hc2, hx] at hbad
          exact absurd hbad (by decide)
      simp [hc2, hsup, hnf, badVerdict]
  | cons x pre ih =>
    intro r rest s st hpre hlk hbad hnf
    rcases hpre x (List.mem_cons_self x pre) with ⟨stx, hlkx, hgood⟩
    simp only [List.cons_append, classify, hlkx]
    simp only [goodStepB, Bool.and_eq_true, Bool.not_eq_true'] at hgood
    simp [hgood.1, hgood.2]
    exact ih r rest s st (fun y hy => hpre y (List.mem_cons_of_mem x hy)) hlk hbad hnf

def stW : Step :=
  { drvPath := dpW, drv := some drvLeafW, requiredSystemFeatures := [],
    preferLocalBuild := false,
    state := { deps := [], rdeps := [], builds := [], created := true } }

theorem C5_classify_first_bad_witness :
    aLookup 0 s1W.g.heap = some stW ∧ goodStepB envW stW = false ∧
    (rowBuild rowP2).finishedInDB = false ∧
    classify envW 0 ([] ++ 0 :: []) (rowBuild rowP2) s1W =
      .ok (true, { rowBuild rowP2 with finishedInDB := true },
        { s1W with events := failTxn (rowBuild rowP2).id stW.drvPath
                     (badVerdict envW 0 0 stW).2 (badVerdict envW 0 0 stW).1 envW.now ::
                     s1W.events,
                   nrBuildsDone := s1W.nrBuildsDone + 1 }) :=
  ⟨rfl, by decide, by decide,
   C5_classify_first_bad envW 0 (rowBuild rowP2) [] 0 [] s1W stW
     (by intro y hy
         exact absurd hy (List.not_mem_nil y)) rfl (by decide) (by decide)⟩

/-! ## Event shapes and the ingestion postcondition (claims C7-C10) -/

/-- Every database transaction committed by the ingestion core is either the
garbage-collection update or the failing-classification pair. -/
def okEvent (env : Env) : Event → Prop
  | .dbTxn stmts =>
      (∃ id, Event.dbTxn stmts = gcTxn id env.now) ∨
      (∃ id dp ss bs, Event.dbTxn stmts = failTxn id dp ss bs env.now)
  | _ => True

theorem mmFindB_eraseFirst_none {k key : Path} {l : List (Path × Build)}
    (h : mmFindB key l = none) : mmFindB key (mmEraseFirst k l) = none := by
  induction l with
  | nil => exact h
  | cons kb rest ih =>
    rw [mmFindB] at h
    by_cases hk : key = kb.1
    · rw [if_pos hk] at h
      cases h
    · rw [if_neg hk] at h
      rw [mmEraseFirst]
      by_cases hk2 : k = kb.1
      · rw [if_pos hk2]
        exact h
      · rw [if_neg hk2, mmFindB, if_neg hk]
        exact ih h

/-- Frame of the classification pass: only `events` and `nrBuildsDone` can
change, and then exactly by one failing transaction. -/
theorem classify_frame (env : Env) (rootSid : Nat) :
    ∀ (sids : List Nat) (b : Build) (s : S) (bs : Bool) (b1 : Build) (s1 : S),
      classify env rootSid sids b s = .ok (bs, b1, s1) →
      s1.g = s.g ∧ s1.newBuilds = s.newBuilds ∧ s1.buildsMap = s.buildsMap ∧
      s1.newRunnable = s.newRunnable ∧ s1.nrAdded = s.nrAdded ∧
      s1.nrBuildsRead = s.nrBuildsRead ∧
      ((bs = false ∧ b1 = b ∧ s1 = s) ∨
       (bs = true ∧ b1 = b ∧ s1 = s ∧ b.finishedInDB = true) ∨
       (bs = true ∧ b.finishedInDB = false ∧ b1 = { b with finishedInDB := true } ∧
        ∃ r st, aLookup r s.g.heap = some st ∧
          s1.events = failTxn b.id st.drvPath (badVerdict env rootSid r st).2
              (badVerdict env rootSid r st).1 env.now :: s.events ∧
          s1.nrBuildsDone = s.nrBuildsDone + 1)) := by
  intro sids
  induction sids with
  | nil =>
    intro b s bs b1 s1 h
    simp only [classify] at h
    injection h with h2
    injection h2 with hbs h3
    injection h3 with hb hs
    subst hbs
    subst hb
    subst hs
    exact ⟨rfl, rfl, rfl, rfl, rfl, rfl, Or.inl ⟨rfl, rfl, rfl⟩⟩
  | cons r rest ih =>
    intro b s bs b1 s1 h
    simp only [classify] at h
    split at h
    case h_1 hlk => cases h
    case h_2 st hlk =>
    by_cases hc : checkCachedFailure env st = true
    · rcases eq_or_ne rootSid r with hr | hr
      · simp only [hc, hr, if_true] at h
        simp at h
        split at h
        next hfi =>
          injection h with h2
          injection h2 with hbs h3
          injection h3 with hb hs
          subst hbs
          subst hb
          subst hs
          refine ⟨rfl, rfl, rfl, rfl, rfl, rfl,
            Or.inr (Or.inr ⟨rfl, hfi, rfl, r, st, hlk, ?_, rfl⟩)⟩
          simp [badVerdict, hc, hr]
        next hfi =>
          injection h with h2
          injection h2 with hbs h3
          injection h3 with hb hs
          subst hbs
          subst hb
          subst hs
          have hfi2 : b.finishedInDB = true := by
            cases hx : b.finishedInDB
            · exact absurd hx hfi
            · rfl
          exact ⟨rfl, rfl, rfl, rfl, rfl, rfl, Or.inr (Or.inl ⟨rfl, rfl, rfl, hfi2⟩)⟩
      · simp only [hc, if_true] at h
        simp [hr] at h
        split at h
        next hfi =>
          injection h with h2
          injection h2 with hbs h3
          injection h3 with hb hs
          subst hbs
          subst hb
          subst hs
          refine ⟨rfl, rfl, rfl, rfl, rfl, rfl,
            Or.inr (Or.inr ⟨rfl, hfi, rfl, r, st, hlk, ?_, rfl⟩)⟩
          simp [badVerdict, hc, hr]
        next hfi =>
          injection h with h2
          injection h2 with hbs h3
          injection h3 with hb hs
          subst hbs
          subst hb
          subst hs
          have hfi2 : b.finishedInDB = true := by
            cases hx : b.finishedInDB
            · exact absurd hx hfi
            · rfl
          exact ⟨rfl, rfl, rfl, rfl, rfl, rfl, Or.inr (Or.inl ⟨rfl, rfl, rfl, hfi2⟩)⟩
    · have hc2 : checkCachedFailure env st = false := Bool.eq_false_iff.mpr hc
      by_cases ha : env.machines.any (fun m => m.2.supportsStep st) = true
      · simp [hc2, ha] at h
        exact ih b s bs b1 s1 h
      · have ha2 : env.machines.any (fun m => m.2.supportsStep st) = false :=
          Bool.eq_false_iff.mpr ha
        simp [hc2, ha2] at h
        split at h
        next hfi =>
          injection h with h2
          injection h2 with hbs h3
          injection h3 with hb hs
          subst hbs
          subst hb
          subst hs
          refine ⟨rfl, rfl, rfl, rfl, rfl, rfl,
            Or.inr (Or.inr ⟨rfl, hfi, rfl, r, st, hlk, ?_, rfl⟩)⟩
          simp [badVerdict, hc2]
        next hfi =>
          injection h with h2
          injection h2 with hbs h3
          injection h3 with hb hs
          subst hbs
          subst hb
          subst hs
          have hfi2 : b.finishedInDB = true := by
            cases hx : b.finishedInDB
            · exact absurd hx hfi
            · rfl
          exact ⟨rfl, rfl, rfl, rfl, rfl, rfl, Or.inr (Or.inl ⟨rfl, rfl, rfl, hfi2⟩)⟩

/-- Postcondition of one build ingestion (`createBuild` / `piggyback` /
`drainKey`): the heap evolves by `HPost`, every new builds-map entry is a
published build with a created root, the working multimap only shrinks,
every new event is an allowed shape, `nrBuildsRead` is untouched, and every
step created during the call has had its key drained from the working set. -/
structure BPOut (env : Env) (s s1 : S) : Prop where
  hp : HPost none s.g.nextId s.g s1.g
  hBM : ∀ id bb, aLookup id s1.buildsMap = some bb →
      aLookup id s.buildsMap = some bb ∨
      (bb.id = id ∧ ∃ root, bb.toplevel = some root ∧ createdB s1.g root = true)
  hNBn : ∀ key, mmFindB key s.newBuilds = none → mmFindB key s1.newBuilds = none
  hEv : ∀ e ∈ s1.events, e ∈ s.events ∨ okEvent env e
  hRd : s1.nrBuildsRead = s.nrBuildsRead
  hDr : ∀ sid st, aLookup sid s1.g.heap = some st → s.g.nextId ≤ sid →
      st.state.created = true → mmFindB st.drvPath s1.newBuilds = none

theorem BPOut.reflBP (env : Env) {s : S} (hwf : WFg s.g) : BPOut env s s := by
  refine ⟨HPost.reflHP none s.g.nextId s.g le_rfl, ?_, ?_, ?_, rfl, ?_⟩
  · intro id bb h
    left
    exact h
  · intro key h
    exact h
  · intro e he
    left
    exact he
  · intro sid st hl hge _hc
    rw [hwf.lookup_ge_none hge] at hl
    cases hl

theorem BPOut.transBP {env : Env} {s s1 s2 : S}
    (h1 : BPOut env s s1) (h2 : BPOut env s1 s2)
    (hwf : WFg s.g) (hdc : DepsCreated s.g) : BPOut env s s2 := by
  refine ⟨h1.hp.transHP h2.hp h1.hp.hNext hwf hdc, ?_, ?_, ?_, h2.hRd.trans h1.hRd, ?_⟩
  · intro id bb h
    rcases h2.hBM id bb h with h3 | ⟨hid, root, htl, hcr⟩
    · rcases h1.hBM id bb h3 with h4 | ⟨hid, root, htl, hcr⟩
      · left
        exact h4
      · right
        exact ⟨hid, root, htl, h2.hp.createdMono hcr⟩
    · right
      exact ⟨hid, root, htl, hcr⟩
  · intro key h
    exact h2.hNBn key (h1.hNBn key h)
  · intro e he
    rcases h2.hEv e he with h3 | h3
    · exact h1.hEv e h3
    · right
      exact h3
  · intro sid st hl hge hc
    by_cases hge2 : s1.g.nextId ≤ sid
    · exact h2.hDr sid st hl hge2 hc
    · push_neg at hge2
      rcases h2.hp.hNewKeys sid st hl with ⟨st0, hl0⟩ | hge3
      · by_cases hc0 : st0.state.created = true
        · have hdr1 := h1.hDr sid st0 hl0 hge hc0
          rcases h2.hp.hCreated sid st0 hl0 hc0 with ⟨st1, hl1, _, _, hdp1, _⟩
          rw [hl1] at hl
          injection hl with h7
          subst h7
          rw [hdp1]
          exact h2.hNBn _ hdr1
        · rw [Bool.not_eq_true] at hc0
          rcases h2.hp.hOld sid st0 hl0 hc0 hge2 with hpx | hun
          · cases hpx
          · rw [hun] at hl
            injection hl with h7
            subst h7
            rw [hc0] at hc
            cases hc
      · omega

theorem drainKey_empty (env : Env) (fuel : Nat) (key : Path) (s : S)
    (hnb : s.newBuilds = []) : drainKey env fuel key s = .ok s := by
  cases fuel with
  | zero => simp [drainKey, hnb, mmFindB]
  | succ fuel => simp [drainKey, hnb, mmFindB]

theorem piggyback_empty (env : Env) :
    ∀ (sids : List Nat) (fuel : Nat) (s : S), sids.length ≤ fuel → s.newBuilds = [] →
      (∀ x ∈ sids, (aLookup x s.g.heap).isSome = true) →
      piggyback env fuel sids s = .ok s := by
  intro sids
  induction sids with
  | nil =>
    intro fuel s _ _ _
    cases fuel <;> rfl
  | cons x rest ih =>
    intro fuel s hlen hnb hlk
    cases fuel with
    | zero =>
      exfalso
      simp at hlen
    | succ fuel =>
      simp only [piggyback]
      split
      case h_1 hnone =>
        have := hlk x (List.mem_cons_self x rest)
        rw [hnone] at this
        cases this
      case h_2 st hst =>
        rw [drainKey_empty env fuel st.drvPath s hnb]
        exact ih fuel s (by simpa using Nat.le_of_succ_le_succ hlen) hnb
          (fun y hy => hlk y (List.mem_cons_of_mem x hy))

/-- The joint postcondition of the ingestion functions, by induction on fuel:
each of `createBuild`, `piggyback` and `drainKey` satisfies `BPOut`;
`piggyback` additionally drains the working-set key of every step it is
given, and `drainKey` leaves its key absent from the working set. -/
theorem createBuild_cluster (env : Env) : ∀ fuel : Nat,
    (∀ build s s1, WFg s.g → DepsCreated s.g →
      createBuild env fuel build s = .ok s1 → BPOut env s s1) ∧
    (∀ sids s s1, WFg s.g → DepsCreated s.g →
      (∀ x ∈ sids, ∃ st, aLookup x s.g.heap = some st ∧ st.state.created = true) →
      piggyback env fuel sids s = .ok s1 →
      BPOut env s s1 ∧
      ∀ x ∈ sids, ∀ st, aLookup x s.g.heap = some st →
        mmFindB st.drvPath s1.newBuilds = none) ∧
    (∀ key s s1, WFg s.g → DepsCreated s.g →
      drainKey env fuel key s = .ok s1 →
      BPOut env s s1 ∧ mmFindB key s1.newBuilds = none) := by
  intro fuel
  induction fuel with
  | zero =>
    refine ⟨?_, ?_, ?_⟩
    · intro build s s1 _ _ h
      cases h
    · intro sids s s1 hwf _ _ h
      cases sids with
      | nil =>
        injection h with h2
        subst h2
        exact ⟨BPOut.reflBP env hwf, fun x hx => absurd hx (List.not_mem_nil x)⟩
      | cons a rest => cases h
    · intro key s s1 hwf _ h
      simp only [drainKey] at h
      split at h
      next hs => cases h
      next hs =>
        injection h with h2
        subst h2
        refine ⟨BPOut.reflBP env hwf, ?_⟩
        cases hx : mmFindB key s.newBuilds with
        | none => rfl
        | some b =>
          rw [hx] at hs
          simp at hs
  | succ fuel ih =>
    obtain ⟨ihCB, ihPB, ihDK⟩ := ih
    refine ⟨?_, ?_, ?_⟩
    · -- createBuild (fuel + 1)
      intro build s s1 hwf hdc h
      simp only [createBuild] at h
      split at h
      next hval =>
        split at h
        next hnf =>
          injection h with h2
          subst h2
          refine ⟨HPost.reflHP none s.g.nextId s.g le_rfl, ?_, ?_, ?_, rfl, ?_⟩
          · intro id bb hbb
            left
            exact hbb
          · intro key hk
            exact hk
          · intro e he
            rcases List.mem_cons.1 he with he1 | he1
            · right
              subst he1
              exact Or.inl ⟨build.id, rfl⟩
            · left
              exact he1
          · intro sid st hl hge _hc
            rw [hwf.lookup_ge_none hge] at hl
            cases hl
        next hnf =>
          injection h with h2
          subst h2
          refine ⟨HPost.reflHP none s.g.nextId s.g le_rfl, ?_, ?_, ?_, rfl, ?_⟩
          · intro id bb hbb
            left
            exact hbb
          · intro key hk
            exact hk
          · intro e he
            left
            exact he
          · intro sid st hl hge _hc
            rw [hwf.lookup_ge_none hge] at hl
            cases hl
      next hval =>
      split at h
      next e hcs => cases h
      next step? sA cs hcs =>
      obtain ⟨SO, hroot⟩ :=
        (createStep_createStepDeps_out env (fuel + 1)).1 build.drvPath (some build.id) none
          { s with nrAdded := s.nrAdded + 1 } ⟨[], []⟩ step? sA cs hwf hdc
          (fun x hx => absurd hx (List.not_mem_nil x)) hcs
      have hwfA : WFg sA.g := SO.hp.hWF hwf
      have hdcA : DepsCreated sA.g := SO.hp.hDeps hwf hdc
      split at h
      next e hpb => cases h
      next sB hpb =>
      have hsteps : ∀ x ∈ cs.newSteps,
          ∃ st, aLookup x sA.g.heap = some st ∧ st.state.created = true := by
        intro x hx
        rcases SO.hNSnew x hx with hx2 | ⟨st, hl, hc, _⟩
        · exact absurd hx2 (List.not_mem_nil x)
        · exact ⟨st, hl, hc⟩
      obtain ⟨BP1, hDrL⟩ := ihPB cs.newSteps sA sB hwfA hdcA hsteps hpb
      have hpB : HPost none s.g.nextId s.g sB.g :=
        SO.hp.transHP BP1.hp SO.hp.hNext hwf hdc
      have hEvB : ∀ e ∈ sB.events, e ∈ s.events ∨ okEvent env e := by
        intro e he
        rcases BP1.hEv e he with h3 | h3
        · rcases SO.hEv e h3 with h4 | ⟨p, hp4⟩
          · left
            exact h4
          · right
            subst hp4
            trivial
        · right
          exact h3
      have hRdB : sB.nrBuildsRead = s.nrBuildsRead := BP1.hRd.trans SO.hNRd
      have hNBnB : ∀ key, mmFindB key s.newBuilds = none →
          mmFindB key sB.newBuilds = none := by
        intro k hk
        apply BP1.hNBn
        rw [SO.hNB]
        exact hk
      have hBMB : ∀ id bb, aLookup id sB.buildsMap = some bb →
          aLookup id s.buildsMap = some bb ∨
          (bb.id = id ∧ ∃ root, bb.toplevel = some root ∧ createdB sB.g root = true) := by
        intro id bb hbb
        rcases BP1.hBM id bb hbb with h3 | hnew
        · left
          rw [SO.hBM] at h3
          exact h3
        · right
          exact hnew
      have hdrB : ∀ sid st, aLookup sid sB.g.heap = some st → s.g.nextId ≤ sid →
          st.state.created = true → mmFindB st.drvPath sB.newBuilds = none := by
        intro sid st hl hge hc
        by_cases hge2 : sA.g.nextId ≤ sid
        · exact BP1.hDr sid st hl hge2 hc
        · push_neg at hge2
          rcases BP1.hp.hNewKeys sid st hl with ⟨st0, hl0⟩ | hge3
          · by_cases hc0 : st0.state.created = true
            · have hmem := SO.hFresh sid st0 hl0 hge hc0
              have hnone := hDrL sid hmem st0 hl0
              rcases BP1.hp.hCreated sid st0 hl0 hc0 with ⟨st1, hl1, _, _, hdp1, _⟩
              rw [hl1] at hl
              injection hl with h7
              subst h7
              rw [hdp1]
              exact hnone
            · rw [Bool.not_eq_true] at hc0
              rcases BP1.hp.hOld sid st0 hl0 hc0 hge2 with hpx | hun
              · cases hpx
              · rw [hun] at hl
                injection hl with h7
                subst h7
                rw [hc0] at hc
                cases hc
          · omega
      split at h
      next =>
        cases hrd : readDerivation env.store build.drvPath with
        | none =>
          rw [hrd] at h
          cases h
        | some drv =>
          rw [hrd] at h
          injection h with h2
          subst h2
          refine ⟨hpB, hBMB, hNBnB, ?_, hRdB, hdrB⟩
          intro e he
          rcases List.mem_cons.1 he with he1 | he
          · right
            subst he1
            trivial
          rcases List.mem_cons.1 he with he1 | he
          · right
            subst he1
            trivial
          rcases List.mem_cons.1 he with he1 | he
          · right
            subst he1
            trivial
          exact hEvB e he
      next rootSid =>
        have hrootB : createdB sB.g rootSid = true := by
          rcases hroot rootSid rfl with ⟨st, hl, hc⟩
          exact BP1.hp.createdMono (createdB_of_lookup hl hc)
        split at h
        next e hcl => cases h
        next badStep b1 sC hcl =>
        obtain ⟨hg, hnb2, hbm2, hnr2, hna2, hnrd2, hdisj⟩ :=
          classify_frame env rootSid cs.newSteps build sB badStep b1 sC hcl
        have hEvC : ∀ e ∈ sC.events, e ∈ s.events ∨ okEvent env e := by
          rcases hdisj with ⟨_, _, hseq⟩ | ⟨_, _, hseq, _⟩ | ⟨_, _, _, r2, st2, _, hev2, _⟩
          · rw [hseq]
            exact hEvB
          · rw [hseq]
            exact hEvB
          · rw [hev2]
            intro e he
            rcases List.mem_cons.1 he with he1 | he1
            · right
              subst he1
              exact Or.inr ⟨build.id, st2.drvPath, _, _, rfl⟩
            · exact hEvB e he1
        split at h
        next hbs =>
          injection h with h2
          subst h2
          refine ⟨?_, ?_, ?_, hEvC, ?_, ?_⟩
          · rw [hg]
            exact hpB
          · intro id bb hbb
            rw [hbm2] at hbb
            rcases hBMB id bb hbb with h3 | ⟨hid, root, htl, hcr⟩
            · left
              exact h3
            · right
              refine ⟨hid, root, htl, ?_⟩
              rw [hg]
              exact hcr
          · intro k hk
            rw [hnb2]
            exact hNBnB k hk
          · rw [hnrd2]
            exact hRdB
          · intro sid st hl hge hc
            rw [hg] at hl
            rw [hnb2]
            exact hdrB sid st hl hge hc
        next hbs =>
          injection h with h2
          by_cases hfi : b1.finishedInDB = false
          · rw [if_pos hfi] at h2
            subst h2
            refine ⟨?_, ?_, ?_, hEvC, ?_, ?_⟩
            · rw [hg]
              exact hpB
            · intro id bb hbb
              by_cases hid : id = ({ b1 with toplevel := some rootSid } : Build).id
              · rw [hid, aLookup_aSet_self] at hbb
                injection hbb with h7
                right
                refine ⟨?_, rootSid, ?_, ?_⟩
                · rw [← h7, hid]
                · rw [← h7]
                · show createdB sC.g rootSid = true
                  rw [hg]
                  exact hrootB
              · rw [aLookup_aSet_ne _ _ hid, hbm2] at hbb
                rcases hBMB id bb hbb with h3 | ⟨hid2, root, htl, hcr⟩
                · left
                  exact h3
                · right
                  refine ⟨hid2, root, htl, ?_⟩
                  rw [hg]
                  exact hcr
            · intro k hk
              rw [hnb2]
              exact hNBnB k hk
            · rw [hnrd2]
              exact hRdB
            · intro sid st hl hge hc
              rw [hg] at hl
              rw [hnb2]
              exact hdrB sid st hl hge hc
          · rw [if_neg hfi] at h2
            subst h2
            refine ⟨?_, ?_, ?_, hEvC, ?_, ?_⟩
            · rw [hg]
              exact hpB
            · intro id bb hbb
              rw [hbm2] at hbb
              rcases hBMB id bb hbb with h3 | ⟨hid, root, htl, hcr⟩
              · left
                exact h3
              · right
                refine ⟨hid, root, htl, ?_⟩
                rw [hg]
                exact hcr
            · intro k hk
              rw [hnb2]
              exact hNBnB k hk
            · rw [hnrd2]
              exact hRdB
            · intro sid st hl hge hc
              rw [hg] at hl
              rw [hnb2]
              exact hdrB sid st hl hge hc
    · -- piggyback (fuel + 1)
      intro sids s s1 hwf hdc hsteps h
      cases sids with
      | nil =>
        simp only [piggyback] at h
        injection h with h2
        subst h2
        exact ⟨BPOut.reflBP env hwf, fun x hx => absurd hx (List.not_mem_nil x)⟩
      | cons x rest =>
        simp only [piggyback] at h
        split at h
        next hnone => cases h
        next st hst =>
        split at h
        next e hdk => cases h
        next sM hdk =>
        obtain ⟨BPdk, hkey⟩ := ihDK st.drvPath s sM hwf hdc hdk
        have hwfM : WFg sM.g := BPdk.hp.hWF hwf
        have hdcM : DepsCreated sM.g := BPdk.hp.hDeps hwf hdc
        have hstepsM : ∀ y ∈ rest,
            ∃ sty, aLookup y sM.g.heap = some sty ∧ sty.state.created = true := by
          intro y hy
          rcases hsteps y (List.mem_cons_of_mem x hy) with ⟨sty, hly, hcy⟩
          rcases BPdk.hp.hCreated y sty hly hcy with ⟨sty1, hly1, hcy1, _⟩
          exact ⟨sty1, hly1, hcy1⟩
        obtain ⟨BPpb, hDrL⟩ := ihPB rest sM s1 hwfM hdcM hstepsM h
        refine ⟨BPdk.transBP BPpb hwf hdc, ?_⟩
        intro y hy sty hly
        rcases List.mem_cons.1 hy with hy1 | hy1
        · subst hy1
          rw [hst] at hly
          injection hly with h7
          subst h7
          exact BPpb.hNBn _ hkey
        · rcases hsteps y (List.mem_cons_of_mem x hy1) with ⟨sty0, hly0, hcy0⟩
          rw [hly] at hly0
          injection hly0 with h7
          subst h7
          rcases BPdk.hp.hCreated y sty hly hcy0 with ⟨sty1, hly1, _, _, hdp1, _⟩
          have hfin := hDrL y hy1 sty1 hly1
          rw [← hdp1]
          exact hfin
    · -- drainKey (fuel + 1)
      intro key s s1 hwf hdc h
      simp only [drainKey] at h
      split at h
      next hfind =>
        injection h with h2
        subst h2
        exact ⟨BPOut.reflBP env hwf, hfind⟩
      next b hfind =>
      split at h
      next e hcb => cases h
      next sM hcb =>
      have BP0 : BPOut env s { s with newBuilds := mmEraseFirst key s.newBuilds } := by
        refine ⟨HPost.reflHP none s.g.nextId s.g le_rfl, ?_, ?_, ?_, rfl, ?_⟩
        · intro id bb hbb
          left
          exact hbb
        · intro k2 hk2
          exact mmFindB_eraseFirst_none hk2
        · intro e he
          left
          exact he
        · intro sid st hl hge _hc
          rw [hwf.lookup_ge_none hge] at hl
          cases hl
      have BPcb := ihCB b { s with newBuilds := mmEraseFirst key s.newBuilds } sM hwf hdc hcb
      obtain ⟨BPdk2, hkey2⟩ := ihDK key sM s1 (BPcb.hp.hWF hwf) (BPcb.hp.hDeps hwf hdc) h
      exact ⟨BP0.transBP (BPcb.transBP BPdk2 hwf hdc) hwf hdc, hkey2⟩

/-! ## Claim C7: publishing and liveness of the created subgraph -/

/-- Reachability from a step along dependency edges of the heap. -/
inductive Reaches (g : GState) : Nat → Nat → Prop where
  | refl (x : Nat) : Reaches g x x
  | step {x y z : Nat} {st : Step} : Reaches g x y →
      aLookup y g.heap = some st → z ∈ st.state.deps → Reaches g x z

theorem reaches_created {g : GState} (hdc : DepsCreated g) {r : Nat}
    (hr : createdB g r = true) : ∀ x, Reaches g r x → createdB g x = true := by
  intro x hx
  induction hx with
  | refl => exact hr
  | step hxy hl hd ih =>
    rcases createdB_eq_true ih with ⟨st2, hl2, hc2⟩
    rw [hl2] at hl
    injection hl with h7
    subst h7
    exact hdc.of_lookup hl2 hc2 _ hd

/-- The publish branch of `createBuild`, symbolically: with a root step, no
bad step and the build not finished in the database, the build is installed
in the builds map with `toplevel` set to the root. -/
theorem createBuild_publish_eq (env : Env) (fuel : Nat) (build : Build) (s : S) :
    ∀ rootSid sA (cs : CS) sB b1 sC,
      env.store.isValidPath build.drvPath = true →
      createStep env (fuel + 1) build.drvPath (some build.id) none
        { s with nrAdded := s.nrAdded + 1 } ⟨[], []⟩ = .ok (some rootSid, sA, cs) →
      piggyback env fuel cs.newSteps sA = .ok sB →
      classify env rootSid cs.newSteps build sB = .ok (false, b1, sC) →
      b1.finishedInDB = false →
      b1 = build ∧
      createBuild env (fuel + 1) build s =
        .ok { sC with
          buildsMap := aSet b1.id ({ b1 with toplevel := some rootSid }) sC.buildsMap } := by
  intro rootSid sA cs sB b1 sC hval hcs hpb hcl hfi
  have hb1 : b1 = build := by
    rcases (classify_frame env rootSid cs.newSteps build sB false b1 sC hcl).2.2.2.2.2.2
      with ⟨_, hb, _⟩ | ⟨hbs, _⟩ | ⟨hbs, _⟩
    · exact hb
    · cases hbs
    · cases hbs
  refine ⟨hb1, ?_⟩
  have hvne : ¬(env.store.isValidPath build.drvPath = false) := by
    rw [hval]
    exact fun hc => Bool.noConfusion hc
  simp only [createBuild, if_neg hvne, hcs, hpb, hcl]
  rw [if_neg (show ¬(false = true) from fun hc => Bool.noConfusion hc)]
  rw [if_pos hfi]


/-- C7: after a `createBuild` run, every builds-map entry that was not there
before is a build published with its own id, carrying `toplevel = some root`
for a created root step, and every step reachable from the root along `deps`
is created; moreover, on the non-terminal path (root step returned, no bad
step, build not finished in the database) the build is installed in the
builds map under its id with `toplevel` set to the root step. -/
theorem C7_publish_toplevel (env : Env) (fuel : Nat) (build : Build) (s : S) :
    (∀ s1, WFg s.g → DepsCreated s.g →
      createBuild env fuel build s = .ok s1 →
      ∀ id bb, aLookup id s1.buildsMap = some bb → aLookup id s.buildsMap = none →
        bb.id = id ∧ ∃ root, bb.toplevel = some root ∧ createdB s1.g root = true ∧
          ∀ x, Reaches s1.g root x → createdB s1.g x = true) ∧
    (∀ rootSid sA cs sB b1 sC,
      env.store.isValidPath build.drvPath = true →
      createStep env (fuel + 1) build.drvPath (some build.id) none
        { s with nrAdded := s.nrAdded + 1 } ⟨[], []⟩ = .ok (some rootSid, sA, cs) →
      piggyback env fuel cs.newSteps sA = .ok sB →
      classify env rootSid cs.newSteps build sB = .ok (false, b1, sC) →
      b1.finishedInDB = false →
      b1 = build ∧
      createBuild env (fuel + 1) build s =
        .ok { sC with
          buildsMap := aSet b1.id ({ b1 with toplevel := some rootSid }) sC.buildsMap }) := by
  constructor
  · intro s1 hwf hdc h id bb hbb hnone
    have BP := (createBuild_cluster env fuel).1 build s s1 hwf hdc h
    rcases BP.hBM id bb hbb with h3 | ⟨hid, root, htl, hcr⟩
    · rw [hnone] at h3
      cases h3
    · have hdc1 : DepsCreated s1.g := BP.hp.hDeps hwf hdc
      exact ⟨hid, root, htl, hcr, fun x hx => reaches_created hdc1 hcr x hx⟩
  · intro rootSid sA cs sB b1 sC hval hcs hpb hcl hfi
    exact createBuild_publish_eq env fuel build s rootSid sA cs sB b1 sC hval hcs hpb hcl hfi

/-! ## Concrete publish scenario (one machine supporting the leaf) -/

def envM : Env :=
  { store := { validPaths := [dpW], drvs := [(dpW, drvLeafW)] }, buildOne := 0,
    localPlatforms := [], cachedFailPaths := [],
    machines := [(1, { supportedDrvs := [dpW] })], now := 7 }

def stM : Step :=
  { drvPath := dpW, drv := some drvLeafW, requiredSystemFeatures := [],
    preferLocalBuild := false,
    state := { deps := [], rdeps := [], builds := [2], created := true } }

def sAM : S :=
  { g := { heap := [(0, stM)], alive := [0], stepsMap := [(dpW, 0)], nextId := 1 },
    newRunnable := [0], buildsMap := [], newBuilds := [], nrAdded := 1,
    nrBuildsDone := 0, nrBuildsRead := 0, events := [Event.readDrv dpW] }

def csM : CS := { finishedDrvs := [], newSteps := [0] }

def bM : Build :=
  { id := 2, drvPath := dpW, fullJobName := "p:j:a", maxSilentTime := 0,
    buildTimeout := 0, finishedInDB := false, toplevel := some 0 }

def s1M : S := { sAM with buildsMap := [(2, bM)] }

theorem C7_publish_toplevel_witness :
    (bM.id = 2 ∧ ∃ root, bM.toplevel = some root ∧ createdB s1M.g root = true ∧
      ∀ x, Reaches s1M.g root x → createdB s1M.g x = true) ∧
    (rowBuild rowP2 = rowBuild rowP2 ∧
      createBuild envM (2 + 1) (rowBuild rowP2) s0W =
        .ok { sAM with
          buildsMap := aSet (rowBuild rowP2).id
            ({ rowBuild rowP2 with toplevel := some 0 }) sAM.buildsMap }) :=
  ⟨(C7_publish_toplevel envM 2 (rowBuild rowP2) s0W).1 s1M
      (by simp only [WFg]; decide) (by simp only [DepsCreated]; decide)
      rfl 2 bM rfl rfl,
   (C7_publish_toplevel envM 2 (rowBuild rowP2) s0W).2 0 sAM csM sAM (rowBuild rowP2) sAM
      (by decide) rfl rfl rfl (by decide)⟩

/-! ## Claim C8: the piggyback pass and the shared-subtree scenario -/

def dpA : Path := "/d/A"

def dpC : Path := "/d/C"

def drvA : Derivation :=
  { outputs := [("out", "/o/A")], inputDrvs := [dpC], env := [], platform := "x" }

def drvC : Derivation :=
  { outputs := [("out", "/o/C")], inputDrvs := [], env := [], platform := "x" }

def storeC8 : Store :=
  { validPaths := [dpA, dpC], drvs := [(dpA, drvA), (dpC, drvC)] }

def envC8 : Env :=
  { store := storeC8, buildOne := 0, localPlatforms := [], cachedFailPaths := [],
    machines := [(1, { supportedDrvs := [dpA, dpC] })], now := 7 }

def build5 : Build :=
  { id := 5, drvPath := dpA, fullJobName := "a", maxSilentTime := 0, buildTimeout := 0,
    finishedInDB := false, toplevel := none }

def build6 : Build :=
  { id := 6, drvPath := dpC, fullJobName := "c", maxSilentTime := 0, buildTimeout := 0,
    finishedInDB := false, toplevel := none }

def s0C8 : S := { s0W with newBuilds := [(dpC, build6)] }

def stA8 : Step :=
  { drvPath := dpA, drv := some drvA, requiredSystemFeatures := [],
    preferLocalBuild := false,
    state := { deps := [1], rdeps := [], builds := [5], created := true } }

/-- The /d/C step right after the dependency recursion, before piggyback. -/
def stC8a : Step :=
  { drvPath := dpC, drv := some drvC, requiredSystemFeatures := [],
    preferLocalBuild := false,
    state := { deps := [], rdeps := [0], builds := [], created := true } }

/-- The /d/C step after piggybacked ingestion of build 6. -/
def stC8 : Step :=
  { drvPath := dpC, drv := some drvC, requiredSystemFeatures := [],
    preferLocalBuild := false,
    state := { deps := [], rdeps := [0], builds := [6], created := true } }

def sA8 : S :=
  { g := { heap := [(0, stA8), (1, stC8a)], alive := [1, 0],
           stepsMap := [(dpA, 0), (dpC, 1)], nextId := 2 },
    newRunnable := [1], buildsMap := [], newBuilds := [(dpC, build6)],
    nrAdded := 1, nrBuildsDone := 0, nrBuildsRead := 0,
    events := [Event.readDrv dpC, Event.readDrv dpA] }

def sB8 : S :=
  { g := { heap := [(0, stA8), (1, stC8)], alive := [1, 0],
           stepsMap := [(dpA, 0), (dpC, 1)], nextId := 2 },
    newRunnable := [1], buildsMap := [(6, { build6 with toplevel := some 1 })],
    newBuilds := [], nrAdded := 2, nrBuildsDone := 0, nrBuildsRead := 0,
    events := [Event.readDrv dpC, Event.readDrv dpA] }

def s1C8 : S := { sB8 with buildsMap := [(6, { build6 with toplevel := some 1 }),
                                         (5, { build5 with toplevel := some 0 })] }

/-- C8 counterexample: in the two-build shared-subtree scenario (build 5 for
/d/A with input /d/C, build 6 for /d/C), after ingesting build 5 the Step for
/d/C carries `builds = [6]` and `rdeps = [0]` (the root Step of /d/A): the
back-reference set is {6}, not the claimed {5, 6} — the dependency recursion
passes no referring build, so only the piggybacked ingestion of build 6
links a build back-reference. -/
theorem C8_shared_step_counterexample :
    createBuild envC8 (3 + 1) build5 s0C8 = .ok s1C8 ∧
    aLookup 1 s1C8.g.heap = some stC8 ∧
    stC8.state.rdeps = [0] ∧ stC8.state.builds = [6] ∧ (5 : Nat) ∉ stC8.state.builds := by
  have hA : createStep envC8 (3 + 1) build5.drvPath (some build5.id) none
      { s0C8 with nrAdded := s0C8.nrAdded + 1 } ⟨[], []⟩ =
      .ok (some 0, sA8, ⟨[], [1, 0]⟩) := rfl
  have hB : piggyback envC8 3 [1, 0] sA8 = .ok sB8 := rfl
  have hC : classify envC8 0 [1, 0] build5 sB8 = .ok (false, build5, sB8) := rfl
  obtain ⟨_, hrun⟩ := createBuild_publish_eq envC8 3 build5 s0C8 0 sA8 ⟨[], [1, 0]⟩ sB8
    build5 sB8 (by decide) hA hB hC (by decide)
  refine ⟨?_, rfl, rfl, rfl, by decide⟩
  rw [hrun]
  rfl

/-- C8 (corrected): during ingest of a build, every step created by the call
whose drvPath matches a build still in the working set has that build removed
from the working set and ingested before the outer ingest returns — by the
end of `createBuild`, the drvPath of every newly created step is drained from
`newBuilds` — and the shared Step's top-level derivation is attributed to its
own Build: in the scenario the /d/C Step ends with `builds = [6]` and
`rdeps = [0]`, not `builds = {5, 6}`. -/
theorem C8_piggyback_drained (env : Env) (fuel : Nat) (build : Build) (s s1 : S)
    (hwf : WFg s.g) (hdc : DepsCreated s.g)
    (h : createBuild env fuel build s = .ok s1) :
    ∀ sid st, aLookup sid s1.g.heap = some st → s.g.nextId ≤ sid →
      st.state.created = true → mmFindB st.drvPath s1.newBuilds = none :=
  fun sid st hl hge hc =>
    ((createBuild_cluster env fuel).1 build s s1 hwf hdc h).hDr sid st hl hge hc

theorem C8_piggyback_drained_witness :
    createBuild envM 2 (rowBuild rowP2) s0W = .ok s1M ∧
    mmFindB stM.drvPath s1M.newBuilds = none :=
  ⟨rfl, C8_piggyback_drained envM 2 (rowBuild rowP2) s0W s1M
    (by simp only [WFg]; decide) (by simp only [DepsCreated]; decide)
    rfl 0 stM rfl (by decide) rfl⟩

/-! ## Claim C9: terminal Builds updates and the finished = 0 guard -/

def listPre : List Char → List Char → Bool
  | [], _ => true
  | _ :: _, [] => false
  | a :: as, b :: bs => a == b && listPre as bs

def listSub (p : List Char) : List Char → Bool
  | [] => listPre p []
  | b :: bs => listPre p (b :: bs) || listSub p bs

/-- Substring test on strings. -/
def strHasSub (needle hay : String) : Bool := listSub needle.data hay.data

def guardStr : String := "where id = $1 and finished = 0"

def envU : Env :=
  { store := { validPaths := [dpW], drvs := [(dpW, drvLeafW)] }, buildOne := 0,
    localPlatforms := [], cachedFailPaths := [], machines := [], now := 7 }

def s1U : S :=
  { g := { heap := [(0, stM)], alive := [0], stepsMap := [(dpW, 0)], nextId := 1 },
    newRunnable := [0], buildsMap := [], newBuilds := [], nrAdded := 1,
    nrBuildsDone := 1, nrBuildsRead := 0,
    events := [failTxn 2 dpW BuildStepStatus.unsupported BuildStatus.unsupported 7,
               Event.readDrv dpW] }

/-- C9 counterexample: the cached-failure/unsupported transaction is not a
single-statement transaction: the run on an unsupported build commits one
transaction holding two statements — the build-step insertion and the Builds
update. -/
theorem C9_single_statement_counterexample :
    createBuild envU 2 (rowBuild rowP2) s0W = .ok s1U ∧
    failTxn 2 dpW BuildStepStatus.unsupported BuildStatus.unsupported 7 ∈ s1U.events ∧
    ∀ stmts, failTxn 2 dpW BuildStepStatus.unsupported BuildStatus.unsupported 7 =
      Event.dbTxn stmts → stmts.length = 2 ∧ stmts.length ≠ 1 := by
  refine ⟨rfl, List.mem_cons_self _ _, ?_⟩
  intro stmts heq
  injection heq with h2
  rw [← h2]
  exact ⟨rfl, by decide⟩

/-- C9 (corrected): every database transaction emitted by a `createBuild` run
is either the single-statement GC'ed-Aborted update or the two-statement
cached-failure/unsupported transaction (build-step insertion followed by the
Builds update); in both shapes the Builds update carries the
`where id = $1 and finished = 0` guard, so an externally-completed build is
never clobbered — but the failing transaction holds two statements, not one. -/
theorem C9_finished_guard (env : Env) (fuel : Nat) (build : Build) (s s1 : S)
    (hwf : WFg s.g) (hdc : DepsCreated s.g)
    (h : createBuild env fuel build s = .ok s1) :
    strHasSub guardStr sqlUpdateGC = true ∧
    strHasSub guardStr sqlUpdateFailed = true ∧
    ∀ stmts, Event.dbTxn stmts ∈ s1.events → Event.dbTxn stmts ∉ s.events →
      (∃ id, stmts = [DbStmt.updateBuildsGC id BuildStatus.aborted env.now gcMsg]) ∨
      (∃ id dp ss bs, stmts =
        [DbStmt.insertBuildStep id dp ss,
         DbStmt.updateBuildsFailed id bs env.now
           (if bs ≠ BuildStatus.unsupported then 1 else 0)]) := by
  refine ⟨by decide, by decide, ?_⟩
  intro stmts hmem hnmem
  have BP := (createBuild_cluster env fuel).1 build s s1 hwf hdc h
  rcases BP.hEv _ hmem with h3 | h3
  · exact absurd h3 hnmem
  · have h4 : (∃ id, Event.dbTxn stmts = gcTxn id env.now) ∨
        (∃ id dp ss bs, Event.dbTxn stmts = failTxn id dp ss bs env.now) := h3
    rcases h4 with ⟨id, heq⟩ | ⟨id, dp, ss, bs, heq⟩
    · left
      refine ⟨id, ?_⟩
      injection heq
    · right
      refine ⟨id, dp, ss, bs, ?_⟩
      injection heq

theorem C9_finished_guard_witness :
    strHasSub guardStr sqlUpdateGC = true ∧
    strHasSub guardStr sqlUpdateFailed = true ∧
    ∀ stmts, Event.dbTxn stmts ∈ s1U.events → Event.dbTxn stmts ∉ s0W.events →
      (∃ id, stmts = [DbStmt.updateBuildsGC id BuildStatus.aborted envU.now gcMsg]) ∨
      (∃ id dp ss bs, stmts =
        [DbStmt.insertBuildStep id dp ss,
         DbStmt.updateBuildsFailed id bs envU.now
           (if bs ≠ BuildStatus.unsupported then 1 else 0)]) :=
  C9_finished_guard envU 2 (rowBuild rowP2) s0W s1U
    (by simp only [WFg]; decide) (by simp only [DepsCreated]; decide) rfl

/-! ## Claim C10: counter discipline of the three terminal paths -/

/-- C10: with an empty working set (so the piggyback pass is a no-op) and a
build not finished in the database: (i) the GC'ed path increments
`nrBuildsDone` (and `nrAdded`); (ii) the cached-success path (root createStep
returned none) leaves `nrBuildsDone` unchanged while still counting the build
in `nrAdded`; (iii) the classification-failure path increments
`nrBuildsDone`; and (iv) the drain loop folds each processed build's
`nrAdded` into `nrBuildsRead`, so all three paths are counted in
`nrBuildsRead`. -/
theorem C10_counters (env : Env) (fuel : Nat) (build : Build) (s : S)
    (hnb : s.newBuilds = []) (hnf : build.finishedInDB = false)
    (hwf : WFg s.g) (hdc : DepsCreated s.g) :
    (env.store.isValidPath build.drvPath = false →
      createBuild env (fuel + 1) build s =
        .ok { s with nrAdded := s.nrAdded + 1,
                     events := gcTxn build.id env.now :: s.events,
                     nrBuildsDone := s.nrBuildsDone + 1 }) ∧
    (∀ sA cs drv, env.store.isValidPath build.drvPath = true →
      createStep env (fuel + 1) build.drvPath (some build.id) none
        { s with nrAdded := s.nrAdded + 1 } ⟨[], []⟩ = .ok (none, sA, cs) →
      readDerivation env.store build.drvPath = some drv →
      cs.newSteps.length ≤ fuel →
      ∃ s1, createBuild env (fuel + 1) build s = .ok s1 ∧
        s1.nrBuildsDone = s.nrBuildsDone ∧ s1.nrAdded = s.nrAdded + 1 ∧
        s1.nrBuildsRead = s.nrBuildsRead) ∧
    (∀ rootSid sA (cs : CS) b1 sC, env.store.isValidPath build.drvPath = true →
      createStep env (fuel + 1) build.drvPath (some build.id) none
        { s with nrAdded := s.nrAdded + 1 } ⟨[], []⟩ = .ok (some rootSid, sA, cs) →
      cs.newSteps.length ≤ fuel →
      classify env rootSid cs.newSteps build sA = .ok (true, b1, sC) →
      createBuild env (fuel + 1) build s = .ok sC ∧
        sC.nrBuildsDone = s.nrBuildsDone + 1 ∧ sC.nrAdded = s.nrAdded + 1 ∧
        sC.nrBuildsRead = s.nrBuildsRead) ∧
    (∀ (sP : S) (k : Path) (b : Build) (rest : List (Path × Build)) (s2 : S),
      sP.newBuilds = (k, b) :: rest →
      createBuild env (fuel + 1) b
        { sP with newBuilds := rest, newRunnable := [], nrAdded := 0 } = .ok s2 →
      drainLoop env (fuel + 1) sP = drainLoop env fuel
        { s2 with events := s2.newRunnable.map Event.makeRunnable ++ s2.events,
                  nrBuildsRead := s2.nrBuildsRead + s2.nrAdded }) := by
  refine ⟨?_, ?_, ?_, ?_⟩
  · intro hval
    simp only [createBuild]
    rw [if_pos hval, if_pos hnf]
  · intro sA cs drv hval hcs hrd hlen
    have hvne : ¬(env.store.isValidPath build.drvPath = false) := by
      rw [hval]
      exact fun hc => Bool.noConfusion hc
    obtain ⟨SO, _⟩ :=
      (createStep_createStepDeps_out env (fuel + 1)).1 build.drvPath (some build.id) none
        { s with nrAdded := s.nrAdded + 1 } ⟨[], []⟩ none sA cs hwf hdc
        (fun x hx => absurd hx (List.not_mem_nil x)) hcs
    have hnbA : sA.newBuilds = [] := by
      rw [SO.hNB]
      exact hnb
    have hpb : piggyback env fuel cs.newSteps sA = .ok sA := by
      apply piggyback_empty env cs.newSteps fuel sA hlen hnbA
      intro x hx
      rcases SO.hNSnew x hx with hx2 | ⟨st, hl, _, _⟩
      · exact absurd hx2 (List.not_mem_nil x)
      · rw [hl]
        rfl
    refine ⟨{ sA with events := Event.markSucceededTxn build.id true env.now env.now ::
        Event.getOutput build.drvPath :: Event.readDrv build.drvPath :: sA.events },
      ?_, SO.hND, SO.hNA, SO.hNRd⟩
    simp only [createBuild, if_neg hvne, hcs, hpb, hrd]
  · intro rootSid sA cs b1 sC hval hcs hlen hcl
    have hvne : ¬(env.store.isValidPath build.drvPath = false) := by
      rw [hval]
      exact fun hc => Bool.noConfusion hc
    obtain ⟨SO, _⟩ :=
      (createStep_createStepDeps_out env (fuel + 1)).1 build.drvPath (some build.id) none
        { s with nrAdded := s.nrAdded + 1 } ⟨[], []⟩ (some rootSid) sA cs hwf hdc
        (fun x hx => absurd hx (List.not_mem_nil x)) hcs
    have hnbA : sA.newBuilds = [] := by
      rw [SO.hNB]
      exact hnb
    have hpb : piggyback env fuel cs.newSteps sA = .ok sA := by
      apply piggyback_empty env cs.newSteps fuel sA hlen hnbA
      intro x hx
      rcases SO.hNSnew x hx with hx2 | ⟨st, hl, _, _⟩
      · exact absurd hx2 (List.not_mem_nil x)
      · rw [hl]
        rfl
    obtain ⟨hg, hnb2, hbm2, hnr2, hna2, hnrd2, hdisj⟩ :=
      classify_frame env rootSid cs.newSteps build sA true b1 sC hcl
    have hdone : sC.nrBuildsDone = sA.nrBuildsDone + 1 := by
      rcases hdisj with ⟨hbs, _⟩ | ⟨_, _, _, hfit⟩ | ⟨_, _, _, r2, st2, _, _, hdone2⟩
      · cases hbs
      · rw [hnf] at hfit
        cases hfit
      · exact hdone2
    refine ⟨?_, ?_, ?_, ?_⟩
    · simp only [createBuild, if_neg hvne, hcs, hpb, hcl, if_true]
    · rw [hdone, SO.hND]
    · rw [hna2, SO.hNA]
    · rw [hnrd2, SO.hNRd]
  · intro sP k b rest s2 hnbP hcb
    simp only [drainLoop, hnbP, hcb]

theorem C10_counters_witness :
    s0W.newBuilds = [] ∧ (rowBuild rowP2).finishedInDB = false ∧
    ((envW.store.isValidPath (rowBuild rowP2).drvPath = false →
      createBuild envW (1 + 1) (rowBuild rowP2) s0W =
        .ok { s0W with nrAdded := s0W.nrAdded + 1,
                       events := gcTxn (rowBuild rowP2).id envW.now :: s0W.events,
                       nrBuildsDone := s0W.nrBuildsDone + 1 }) ∧
    (∀ sA cs drv, envW.store.isValidPath (rowBuild rowP2).drvPath = true →
      createStep envW (1 + 1) (rowBuild rowP2).drvPath (some (rowBuild rowP2).id) none
        { s0W with nrAdded := s0W.nrAdded + 1 } ⟨[], []⟩ = .ok (none, sA, cs) →
      readDerivation envW.store (rowBuild rowP2).drvPath = some drv →
      cs.newSteps.length ≤ 1 →
      ∃ s1, createBuild envW (1 + 1) (rowBuild rowP2) s0W = .ok s1 ∧
        s1.nrBuildsDone = s0W.nrBuildsDone ∧ s1.nrAdded = s0W.nrAdded + 1 ∧
        s1.nrBuildsRead = s0W.nrBuildsRead) ∧
    (∀ rootSid sA (cs : CS) b1 sC, envW.store.isValidPath (rowBuild rowP2).drvPath = true →
      createStep envW (1 + 1) (rowBuild rowP2).drvPath (some (rowBuild rowP2).id) none
        { s0W with nrAdded := s0W.nrAdded + 1 } ⟨[], []⟩ = .ok (some rootSid, sA, cs) →
      cs.newSteps.length ≤ 1 →
      classify envW rootSid cs.newSteps (rowBuild rowP2) sA = .ok (true, b1, sC) →
      createBuild envW (1 + 1) (rowBuild rowP2) s0W = .ok sC ∧
        sC.nrBuildsDone = s0W.nrBuildsDone + 1 ∧ sC.nrAdded = s0W.nrAdded + 1 ∧
        sC.nrBuildsRead = s0W.nrBuildsRead) ∧
    (∀ (sP : S) (k : Path) (b : Build) (rest : List (Path × Build)) (s2 : S),
      sP.newBuilds = (k, b) :: rest →
      createBuild envW (1 + 1) b
        { sP with newBuilds := rest, newRunnable := [], nrAdded := 0 } = .ok s2 →
      drainLoop envW (1 + 1) sP = drainLoop envW 1
        { s2 with events := s2.newRunnable.map Event.makeRunnable ++ s2.events,
                  nrBuildsRead := s2.nrBuildsRead + s2.nrAdded })) :=
  ⟨rfl, by decide,
   C10_counters envW 1 (rowBuild rowP2) s0W rfl (by decide)
     (by simp only [WFg]; decide) (by simp only [DepsCreated]; decide)⟩

end Hydra
